import Mathlib
set_option maxHeartbeats 1000000

/-!
Verification of the instance-segmentation post-processing / fusion engine of
this repository (`src/inference/postprocessing.py`) over a shallow embedding.

Images (numpy 2-D integer arrays) are embedded as `List (List Nat)` rows;
boolean masks as `List (List Bool)`; probability maps as `List (List ℚ)`
(Python float thresholds are carried exactly as rationals).  Out-of-bounds
reads return the numpy background value (`0` / `false`), which is only used
for stating lemmas uniformly; every embedded function accesses pixels
in-bounds exactly where the source does.

`skimage.measure.label` (8-connectivity, background 0, labels assigned in
raster order of each component's first pixel; on an integer image two pixels
are connected when they are neighbours holding the same non-zero value) is
embedded as `ccLabel` below, built from a decidable same-component relation.

Fallible numpy/Python operations (a `raise`, an out-of-bounds fancy index,
`np.max` of an empty array) are embedded in `Except String`.
-/

abbrev Pix := Nat × Nat

abbrev Grid := List (List Nat)

abbrev BGrid := List (List Bool)

abbrev QGrid := List (List ℚ)

/-- Read a pixel of an integer image; out-of-bounds reads give background 0. -/
def getP (g : Grid) (p : Pix) : Nat := (g.getD p.1 []).getD p.2 0

/-- Read a pixel of a boolean mask; out-of-bounds reads give `false`. -/
def getB (m : BGrid) (p : Pix) : Bool := (m.getD p.1 []).getD p.2 false

/-- `numpy .size`: the number of elements of the array. -/
def gsize (g : Grid) : Nat := g.flatten.length

/-- All in-bounds pixel positions of a grid, in raster order. -/
def allPositions {α : Type} (g : List (List α)) : List Pix :=
  (List.range g.length).flatMap (fun i => (List.range (g.getD i []).length).map (fun j => (i, j)))

/-- Apply a function at every pixel (shape preserving). -/
def mapIdx2 {α β : Type} (f : Pix → α → β) (g : List (List α)) : List (List β) :=
  g.mapIdx (fun i row => row.mapIdx (fun j v => f (i, j) v))

/-! ## 8-connectivity and the same-component relation -/

/-- Coordinates at Chebyshev distance at most 1. -/
def near (a b : Nat) : Prop := a = b ∨ a + 1 = b ∨ b + 1 = a

instance : DecidablePred (fun ab : Nat × Nat => near ab.1 ab.2) := fun _ => by
  unfold near; infer_instance

instance nearDec (a b : Nat) : Decidable (near a b) := by unfold near; infer_instance

/-- 8-adjacency of two distinct pixels. -/
def adjPix (p q : Pix) : Prop := near p.1 q.1 ∧ near p.2 q.2 ∧ p ≠ q

instance adjPixDec (p q : Pix) : Decidable (adjPix p q) := by unfold adjPix; infer_instance

/-- One step of `skimage.measure.label` connectivity on an integer image:
adjacent pixels holding the same non-zero value. -/
def stepPix (g : Grid) (p q : Pix) : Prop :=
  adjPix p q ∧ getP g p = getP g q ∧ getP g p ≠ 0

instance stepPixDec (g : Grid) (p q : Pix) : Decidable (stepPix g p q) := by
  unfold stepPix; infer_instance

/-! Reachability is computed by iterating a one-step expansion on finite sets
of pixels; the iteration count bounds the length of any shortest connectivity
path, so the result is the full reflexive-transitive closure. -/

def cellsF (g : Grid) : Finset Pix := (allPositions g).toFinset

def expandF (g : Grid) (S : Finset Pix) : Finset Pix :=
  S ∪ (cellsF g).filter (fun q => ∃ r ∈ S, stepPix g r q)

/-- All pixels connected to `p` (including `p` itself). -/
def reachF (g : Grid) (p : Pix) : Finset Pix :=
  (expandF g)^[(cellsF g).card + 1] {p}

/-- The same-component relation of `skimage.measure.label` on integer images:
`p` is a non-background pixel and `q` is connected to it. -/
def sameComp (g : Grid) (p q : Pix) : Prop := getP g p ≠ 0 ∧ q ∈ reachF g p

instance sameCompDec (g : Grid) (p q : Pix) : Decidable (sameComp g p q) := by
  unfold sameComp; infer_instance

/-! ## Canonical connected-component labeling (`skimage.measure.label`)

Each component is named by its raster-first pixel (its representative);
components are numbered `1, 2, ...` in raster order of their
representatives, which is exactly the label order skimage produces. -/

/-- The raster-first pixel of the component of `p` (defaults to `p` itself,
which only happens for background pixels). -/
def repOf (g : Grid) (p : Pix) : Pix :=
  ((allPositions g).find? (fun q => decide (sameComp g p q))).getD p

def isRep (g : Grid) (p : Pix) : Bool :=
  decide (getP g p ≠ 0) && decide (repOf g p = p)

/-- All component representatives, in raster order. -/
def repsOf (g : Grid) : List Pix := (allPositions g).filter (isRep g)

/-- Position of a pixel in a list (used to rank representatives). -/
def idxIn : List Pix → Pix → Nat
  | [], _ => 0
  | x :: l, a => if x = a then 0 else idxIn l a + 1

/-- The label `skimage.measure.label` assigns to pixel `p`. -/
def ccLabelAt (g : Grid) (p : Pix) : Nat :=
  if getP g p = 0 then 0 else idxIn (repsOf g) (repOf g p) + 1

/-- Embedding of `skimage.measure.label(img, background=0)` on an integer
image (8-connectivity, labels `1..n` in raster order of first pixels). -/
def ccLabel (g : Grid) : Grid := mapIdx2 (fun p _ => ccLabelAt g p) g

/-! ## Value lists, `np.unique`, and canonical label images -/

def listMax (l : List Nat) : Nat := l.foldr max 0

/-- `np.unique`: the sorted list of distinct values of an array (given here as
its flattened value list). -/
def uniqueSorted (l : List Nat) : List Nat :=
  (List.range (listMax l + 1)).filter (fun v => decide (v ∈ l))


/-- Count of pixels holding value `v` (`np.sum(img == v)`). -/
def countVal (g : Grid) (v : Nat) : Nat := g.flatten.count v

/-- Count of `true` pixels of a boolean mask (`np.sum(mask)`). -/
def countB (m : BGrid) : Nat := m.flatten.count true

/-- Modelled from the spec: `get_nucleus_ids` is imported from
`net_utils.utils`, which is not among the given sources; per the spec
(sections 3 and 4.2) it returns the region ids present in a label image,
i.e. the sorted distinct non-zero values. -/
def get_nucleus_ids (g : Grid) : List Nat :=
  (uniqueSorted g.flatten).filter (fun v => decide (v ≠ 0))

/-- A final/label map in canonical form (spec section 3): its non-zero ids
are the consecutive integers `1..n`, and each id labels exactly one connected
region (all pixels holding the id are pairwise connected; maximality is
automatic, the class holding every pixel of that value). -/
def CanonicalGrid (h : Grid) : Prop :=
  get_nucleus_ids h = List.range' 1 (get_nucleus_ids h).length
  ∧ ∀ l ∈ get_nucleus_ids h, ∀ p q : Pix, getP h p = l → getP h q = l → sameComp h p q


/-! ## Pixelwise numpy operations used by the source -/

/-- `img > 0` as a boolean mask. -/
def gmask (g : Grid) : BGrid := g.map (List.map (fun x => decide (0 < x)))

/-- `img == l` as a boolean mask. -/
def maskEq (g : Grid) (l : Nat) : BGrid := g.map (List.map (fun x => decide (x = l)))

/-- Elementwise `&` of two same-shape masks (shape of the first). -/
def andB (m1 m2 : BGrid) : BGrid := mapIdx2 (fun p b => b && getB m2 p) m1

/-- Elementwise `np.logical_or` of two same-shape masks. -/
def orB (m1 m2 : BGrid) : BGrid := mapIdx2 (fun p b => b || getB m2 p) m1

/-- Boolean-mask assignment `img[mask] = v`. -/
def stampMask (g : Grid) (m : BGrid) (v : Nat) : Grid :=
  mapIdx2 (fun p x => if getB m p then v else x) g

/-- Zero all pixels holding value `l` (`img[img == l] = 0`). -/
def zeroClass (g : Grid) (l : Nat) : Grid :=
  mapIdx2 (fun _ x => if x = l then 0 else x) g

/-- A boolean image as 0/1 integers (`mask.astype(int)`, and the form in
which `measure.label` sees a boolean mask). -/
def bToGrid (m : BGrid) : Grid := m.map (List.map (fun b => if b then 1 else 0))

/-- `img.astype(np.uint16)`: values reduced mod 2^16. -/
def gridU16 (g : Grid) : Grid := g.map (List.map (fun x => x % 65536))

/-- `skimage.measure.regionprops`: one region per distinct positive value of
the label image, in ascending label order, with its pixel count
(`prop.area`); regionprops groups pixels purely by label value. -/
def regionprops (g : Grid) : List (Nat × Nat) :=
  ((uniqueSorted g.flatten).filter (fun v => decide (v ≠ 0))).map
    (fun l => (l, countVal g l))

/-- Overlap ratio `np.sum(component & marker) / np.sum(marker)`, exactly.
(`0/0` yields `0` here; in numpy it is NaN, which fails the `> 0` test just
as `0` does.) -/
def overlapRatioQ (cmask marker : BGrid) : ℚ :=
  mkRat (countB (andB cmask marker)) (countB marker)

/-- A numpy array argument whose dtype is inspected at run time. -/
inductive NpArr : Type
  | bools (m : BGrid)
  | ints (g : Grid)

/-! ## Embeddings of the source functions (src/inference/postprocessing.py) -/

/-- The field-of-interest margin per cell type (source lines 30-36). -/
def foiMargin (cell_type : String) : Nat :=
  if cell_type ∈ ["DIC-C2DH-HeLa", "Fluo-C2DL-Huh7", "Fluo-C2DL-MSC", "Fluo-C3DH-H157",
      "Fluo-N2DH-GOWT1", "Fluo-N3DH-CE", "Fluo-N3DH-CHO", "PhC-C2DH-U373"] then 50
  else if cell_type ∈ ["BF-C2DL-HSC", "BF-C2DL-MuSC", "Fluo-C3DL-MDA231", "Fluo-N2DL-HeLa",
      "PhC-C2DL-PSC"] then 25
  else 0

/-- The inset `mask[E : H - E, E : W - E]` (source line 39, 2-D case). -/
def foiInset (mask : Grid) (E : Nat) : Grid :=
  ((mask.drop E).take (mask.length - 2 * E)).map
    (fun row => (row.drop E).take (row.length - 2 * E))

/-- Embedding of `foi_correction` (source lines 18-49, 2-D case): every
region id absent from the field-of-interest inset is erased from the image. -/
def foi_correction (mask : Grid) (cell_type : String) : Grid :=
  let E := foiMargin cell_type
  let foi := foiInset mask E
  let ids_foi := get_nucleus_ids foi
  let ids_prediction := get_nucleus_ids mask
  ids_prediction.foldl (fun m id_prediction =>
    if id_prediction ∈ ids_foi then m else zeroClass m id_prediction) mask

/-- Embedding of `get_minimum_area_to_remove` (source lines 124-158): the
mean area is computed exactly in ℚ; note the hard-coded final override
`min_area = 30` at source line 157. -/
def get_minimum_area_to_remove (connected_components : Grid) (percentage : ℚ) :
    Except String ℚ :=
  if gsize connected_components = 0 then
    Except.error "connected_components cannot be empty"
  else
    let areas := (regionprops connected_components).map (fun r => (r.2 : ℚ))
    let min_area0 := if areas.any (fun a => decide (a ≠ 0)) then
        percentage * (areas.sum / (areas.length : ℚ)) else 0
    let min_area1 := max min_area0 4
    let min_area := (30 : ℚ)
    Except.ok min_area

/-- Embedding of `remove_smaller_areas` (source lines 292-323): regions with
area at most the threshold are zeroed on a copy, then the result is
relabeled. -/
def remove_smaller_areas (seeds : Grid) (area_threshold : Int) : Except String Grid :=
  if gsize seeds = 0 then
    Except.error "seeds cannot be empty"
  else if area_threshold < 0 then
    Except.error "area_threshold must be a non-negative integer"
  else
    let props := regionprops seeds
    let filtered_seeds := props.foldl (fun fs prop =>
      if (prop.2 : Int) ≤ area_threshold then zeroClass fs prop.1 else fs) seeds
    Except.ok (ccLabel filtered_seeds)

/-- Embedding of `get_maximum_label` (source lines 483-507): `np.max` of the
unique values; `np.max` of an empty array raises. -/
def get_maximum_label (image : Grid) : Except String Nat :=
  if gsize image = 0 then
    Except.error "zero-size array to reduction operation maximum"
  else Except.ok (listMax (uniqueSorted image.flatten))

/-- The scan over ascending labels inside `get_overlapping_components`
(source lines 550-561). -/
def scanOverlap (labels : Grid) (marker : BGrid) (maximum_cells_overlap : ℚ) :
    List Nat → Option (Nat × BGrid × ℚ)
  | [] => none
  | label_value :: rest =>
    if label_value = 0 then scanOverlap labels marker maximum_cells_overlap rest
    else
      let current_image_mask := maskEq labels label_value
      let r := overlapRatioQ current_image_mask marker
      if 0 < r ∧ r ≤ maximum_cells_overlap ∧ 4000 ≤ countB current_image_mask then
        some (label_value, current_image_mask, r)
      else scanOverlap labels marker maximum_cells_overlap rest

/-- Embedding of `get_overlapping_components` (source lines 509-565): the
first label (in `np.unique` ascending order, cast to uint16) whose component
has overlap ratio with the marker in `(0, maximum_cells_overlap]` and at
least 4000 pixels (a hard-coded bound, source line 560); all-`None` when no
label qualifies; raises when the marker is not a boolean array. -/
def get_overlapping_components (original_image : Grid) (marker : NpArr)
    (maximum_cells_overlap : ℚ) : Except String (Option (Nat × BGrid × ℚ)) :=
  match marker with
  | NpArr.ints _ => Except.error "Mask of the marker has to be boolean."
  | NpArr.bools m =>
    let labels := ccLabel original_image
    let unique_labels := (uniqueSorted labels.flatten).map (fun v => v % 65536)
    Except.ok (scanOverlap labels m maximum_cells_overlap unique_labels)

/-- The scan over ascending labels inside `get_nuclei_connected_components`
(source lines 583-593). -/
def scanNuclei (labels : Grid) (marker : BGrid) (minimum_component_dim : Nat) :
    List Nat → Option (Nat × BGrid × ℚ)
  | [] => none
  | label_value :: rest =>
    if label_value = 0 then scanNuclei labels marker minimum_component_dim rest
    else
      let current_image_mask := maskEq labels label_value
      let r := overlapRatioQ current_image_mask marker
      if 0 < r ∧ minimum_component_dim ≤ countB current_image_mask then
        some (label_value, current_image_mask, r)
      else scanNuclei labels marker minimum_component_dim rest

/-- Embedding of `get_nuclei_connected_components` (source lines 568-597):
like `get_overlapping_components` but with no upper ratio bound and a
caller-chosen minimum component size. -/
def get_nuclei_connected_components (original_image : Grid) (marker : NpArr)
    (minimum_component_dim : Nat) : Except String (Option (Nat × BGrid × ℚ)) :=
  match marker with
  | NpArr.ints _ => Except.error "Mask of the marker has to be boolean."
  | NpArr.bools m =>
    let labels := ccLabel original_image
    let unique_labels := (uniqueSorted labels.flatten).map (fun v => v % 65536)
    Except.ok (scanNuclei labels m minimum_component_dim unique_labels)

/-- Embedding of `refine_objects_by_overlapping` (source lines 325-372),
default `max_cell_area = 1000`.  The `measure.regionprops` region list is
materialised up front; its lazily computed areas equal these eager ones
because each loop iteration only writes pixels of its own label.  Note:
there is no final relabeling pass. -/
def refineStep (refiner_mask : BGrid) (max_cell_area : Nat)
    (refined_image : Grid) (prop : Nat × Nat) : Grid :=
  if prop.2 < max_cell_area then
    let current_label_mask := maskEq refined_image prop.1
    let overlap_mask := andB current_label_mask refiner_mask
    if 0 < countB overlap_mask then
      stampMask (stampMask refined_image current_label_mask 0) overlap_mask prop.1
    else
      stampMask refined_image current_label_mask 0
  else refined_image

def refine_objects_by_overlapping (base_image refiner_image : Grid)
    (max_cell_area : Nat) : Grid :=
  let refiner_mask := gmask refiner_image
  (regionprops base_image).foldl (refineStep refiner_mask max_cell_area) base_image

/-- `skimage.morphology.dilation(m, square(9))` on a 0/1 integer image: a
pixel becomes 1 when some pixel within Chebyshev distance 4 is non-zero
(pixels outside the image count as 0). -/
def dilationSq9 (m : Grid) : Grid :=
  mapIdx2 (fun p _ =>
    if (allPositions m).any (fun q =>
        decide (q.1 ≤ p.1 + 4 ∧ p.1 ≤ q.1 + 4 ∧ q.2 ≤ p.2 + 4 ∧ p.2 ≤ q.2 + 4
          ∧ getP m q ≠ 0))
    then 1 else 0) m

/-- numpy fancy indexing `image[idx] = 0` with an INTEGER index array: each
value `r` occurring in `idx` selects the whole row `r` of `image` along axis
0, and the assignment zeroes every selected row; an index value of at least
`image.shape[0]` raises `IndexError`.  (This is what source line 423 executes,
since `dilation(...astype(int), square(9))` is an integer array.) -/
def intFancyZeroRows (image idx : Grid) : Except String Grid :=
  if idx.flatten.all (fun r => decide (r < image.length)) then
    Except.ok (mapIdx2 (fun p x => if p.1 ∈ idx.flatten then 0 else x) image)
  else Except.error "IndexError: index out of bounds for axis 0"

/-- One iteration of the loop of `add_objects_by_overlapping`
(source lines 404-433); the state is the working image and the next usable
label. -/
def addObjectsStep (mask : BGrid) (cells_overlap : ℚ) (min_cell_area : Nat)
    (single_channel_image : Grid) (st : Grid × Nat) (prop : Nat × Nat) :
    Except String (Grid × Nat) :=
  let image := st.1
  let next_usable_label := st.2
  let current_mask := maskEq single_channel_image prop.1
  let overlap_mask := andB current_mask mask
  if 0 < countB overlap_mask then
    match get_overlapping_components image (NpArr.bools current_mask) cells_overlap with
    | Except.error e => Except.error e
    | Except.ok none => Except.ok (image, next_usable_label)
    | Except.ok (some (_component_label, component_mask, _r)) =>
      if min_cell_area ≤ countB component_mask then
        match intFancyZeroRows image (dilationSq9 (bToGrid current_mask)) with
        | Except.error e => Except.error e
        | Except.ok image1 =>
          Except.ok (stampMask image1 current_mask next_usable_label,
            next_usable_label + 1)
      else Except.ok (image, next_usable_label)
  else
    Except.ok (stampMask image current_mask next_usable_label, next_usable_label + 1)

/-- Embedding of `add_objects_by_overlapping` (source lines 374-439),
defaults `cells_overlap = 1.00`, `min_cell_area = 1000`.  The diagnostic
`save_image` calls are external I/O and are omitted. -/
def add_objects_by_overlapping (base_image single_channel_image : Grid)
    (cells_overlap : ℚ) (min_cell_area : Nat) : Except String Grid := do
  let image := base_image
  let mask := gmask image
  let m ← get_maximum_label base_image
  let st ← (regionprops single_channel_image).foldlM
      (addObjectsStep mask cells_overlap min_cell_area single_channel_image)
      (image, m + 1)
  pure (ccLabel st.1)

/-- One iteration of the loop of `add_nuclei_by_overlapping`
(source lines 452-475). -/
def addNucleiStep (mask : BGrid) (min_cell_area : Nat) (single_channel_image : Grid)
    (st : Grid × Nat) (prop : Nat × Nat) : Except String (Grid × Nat) :=
  let image := st.1
  let next_usable_label := st.2
  let current_mask := maskEq single_channel_image prop.1
  let overlap_mask := andB current_mask mask
  if 0 < countB overlap_mask then
    match get_nuclei_connected_components image (NpArr.bools current_mask) min_cell_area with
    | Except.error e => Except.error e
    | Except.ok none => Except.ok (image, next_usable_label)
    | Except.ok (some (component_label, component_mask, _r)) =>
      let final_mask := orB component_mask current_mask
      Except.ok (stampMask image final_mask component_label, next_usable_label)
  else
    Except.ok (stampMask image current_mask next_usable_label, next_usable_label + 1)

/-- The working image of `add_nuclei_by_overlapping` just before its final
relabeling pass (source lines 447-475). -/
def addNucleiCore (base_image single_channel_image : Grid) (min_cell_area : Nat) :
    Except String Grid := do
  let image := base_image
  let mask := gmask image
  let m ← get_maximum_label base_image
  let st ← (regionprops single_channel_image).foldlM
      (addNucleiStep mask min_cell_area single_channel_image) (image, m + 1)
  pure st.1

/-- Embedding of `add_nuclei_by_overlapping` (source lines 442-481), defaults
`cells_overlap = 100` (unused by the source body), `min_cell_area = 1000`. -/
def add_nuclei_by_overlapping (base_image single_channel_image : Grid)
    (min_cell_area : Nat) : Except String Grid := do
  let img ← addNucleiCore base_image single_channel_image min_cell_area
  pure (ccLabel img)

/-- Embedding of `simple_binary_mask_post_processing` (source lines 161-198),
defaults `denoise = True`, `areas_to_remove = 30`: channel 1 of the sigmoid
stack is thresholded at 0.2, labeled, and denoised by area. -/
def simple_binary_mask_post_processing (mask : List QGrid) (original_image : QGrid)
    (args : Unit) (denoise : Bool) (areas_to_remove : Int) : Except String Grid := do
  let threshold : ℚ := mkRat 1 5
  let binary_ch := 1
  match mask[binary_ch]? with
  | none => Except.error "IndexError: index 1 is out of bounds for axis 0"
  | some ch => do
    let processed_mask := ch.map (List.map (fun q => decide (threshold < q)))
    let prediction_instance := ccLabel (bToGrid processed_mask)
    let prediction_instance1 ← if denoise then
        remove_smaller_areas prediction_instance areas_to_remove
      else pure prediction_instance
    pure (gridU16 prediction_instance1)

/-- The input dictionaries of `fusion_post_processing`: an original image and
a channelled sigmoid mask. -/
structure PredDict where
  original_image : QGrid
  mask : List QGrid

/-- Embedding of `fusion_post_processing` (source lines 245-290).  On the
`just_evs = False` path the local `refined_evs_prediction` is never assigned
and the final `return` raises `UnboundLocalError`. -/
def fusion_post_processing (prediction_dict sc_prediction_dict nuclei_prediction_dict :
    PredDict) (args : Unit) (just_evs : Bool) : Except String (Grid × Grid) := do
  let prediction_instance ← simple_binary_mask_post_processing prediction_dict.mask
      prediction_dict.original_image args true 30
  if just_evs then do
    let sc_prediction_instance ← simple_binary_mask_post_processing
        sc_prediction_dict.mask sc_prediction_dict.original_image args true 30
    let nuclei_prediction_instance ← simple_binary_mask_post_processing
        nuclei_prediction_dict.mask nuclei_prediction_dict.original_image args true 1000
    let prediction_instance1 ← add_nuclei_by_overlapping prediction_instance
        nuclei_prediction_instance 1000
    let processed_prediction := refine_objects_by_overlapping prediction_instance1
        sc_prediction_instance 1000
    let refined_evs_prediction ← add_objects_by_overlapping processed_prediction
        sc_prediction_instance 1 1000
    pure (gridU16 refined_evs_prediction, gridU16 refined_evs_prediction)
  else
    Except.error
      "UnboundLocalError: local variable refined_evs_prediction referenced before assignment"

/-- From the spec (section 4.4), for comparison with the source translation:
`findOverlappingComponent` scans labels of the label image in ascending
order, skipping background, and returns the first label with
`0 < overlapRatio <= maxOverlapRatio` and component area at least 4000
(together with its mask and ratio); all-`None` when no label qualifies;
fails when the query mask is not boolean. -/
def findOverlappingComponentSpec (labelImage : Grid) (queryMask : NpArr)
    (maxOverlapRatio : ℚ) : Except String (Option (Nat × BGrid × ℚ)) :=
  match queryMask with
  | NpArr.ints _ => Except.error "Mask of the marker has to be boolean."
  | NpArr.bools m =>
    let labels := ccLabel labelImage
    Except.ok (((get_nucleus_ids labels).find? (fun l =>
        decide (0 < overlapRatioQ (maskEq labels l) m
          ∧ overlapRatioQ (maskEq labels l) m ≤ maxOverlapRatio
          ∧ 4000 ≤ countB (maskEq labels l)))).map
      (fun l => (l, maskEq labels l, overlapRatioQ (maskEq labels l) m)))


/-- Claim C5 as stated: each of the three fusion merge passes (at their
source-default parameters) ends in canonical relabeling. -/
def C5Stated : Prop :=
  (∀ b s r, add_nuclei_by_overlapping b s 1000 = Except.ok r → CanonicalGrid r)
  ∧ (∀ b s, CanonicalGrid (refine_objects_by_overlapping b s 1000))
  ∧ (∀ b s r, add_objects_by_overlapping b s 1 1000 = Except.ok r → CanonicalGrid r)


instance exceptDecEq {ε α : Type} [DecidableEq ε] [DecidableEq α] :
    DecidableEq (Except ε α)
  | Except.error a, Except.error b =>
    if h : a = b then Decidable.isTrue (by rw [h])
    else Decidable.isFalse (fun e => h (by injection e))
  | Except.error _, Except.ok _ => Decidable.isFalse (fun e => Except.noConfusion e)
  | Except.ok _, Except.error _ => Decidable.isFalse (fun e => Except.noConfusion e)
  | Except.ok a, Except.ok b =>
    if h : a = b then Decidable.isTrue (by rw [h])
    else Decidable.isFalse (fun e => h (by injection e))


/-- A well-formed label image in the sense of the spec data model (section
3): every non-zero value labels one connected region, i.e. any two pixels
holding the same non-zero value are connected. -/
def IsLabelImage (g : Grid) : Prop :=
  ∀ p ∈ allPositions g, ∀ q ∈ allPositions g,
    getP g p = getP g q → getP g p ≠ 0 → sameComp g p q

instance isLabelImageDec (g : Grid) : Decidable (IsLabelImage g) := by
  unfold IsLabelImage
  infer_instance


/-- The filtering fold of `remove_smaller_areas` (source lines 317-320). -/
def removeFold (g : Grid) (T : Int) : Grid :=
  (regionprops g).foldl (fun fs pr =>
    if (pr.2 : Int) ≤ T then zeroClass fs pr.1 else fs) g

/-- A one-row image of `n` equal pixels (the shape of the large concrete
inputs used below: a single row keeps connectivity reasoning simple). -/
def constRow {α : Type} (n : Nat) (v : α) : List (List α) := [List.replicate n v]

/-- The property asserted by claim C3 (its central assertion): whenever a
nuclei region overlaps at least one base-image component of area at least
1000, `add_nuclei_by_overlapping` (default `min_cell_area = 1000`) assigns
the union of the region's pixels and the host component's pixels the host's
EXISTING label id -- the id the host had in the base image -- for some such
qualifying host. -/
def C3Stated : Prop :=
  ∀ base nuc img : Grid,
    add_nuclei_by_overlapping base nuc 1000 = Except.ok img →
    ∀ rv ∈ (regionprops nuc).map Prod.fst,
      (∃ hv ∈ (regionprops base).map Prod.fst,
        0 < countB (andB (maskEq nuc rv) (maskEq base hv)) ∧ 1000 ≤ countVal base hv) →
      ∃ hv ∈ (regionprops base).map Prod.fst,
        0 < countB (andB (maskEq nuc rv) (maskEq base hv)) ∧ 1000 ≤ countVal base hv ∧
        ∀ p : Pix, getP nuc p = rv ∨ getP base p = hv → getP img p = hv

/-! ## A heap model for the in-place mutation discipline (claim C10)

numpy arrays are mutable references.  `Heap` is the store of allocated
arrays; a reference is an index into it.  Expressions that produce a NEW
array (`copy.deepcopy`, `.copy()`, comparisons such as `img > 0` or
`img == l`, `&`, `np.logical_or`, `dilation`, `measure.label`) allocate;
the in-place statements of the four functions are exactly the fancy-index
assignments to their working copy, modeled as `hSet` at that copy's
reference.  Masks and other temporaries are never written in place after
creation, so only the label images that receive writes live in the heap. -/

abbrev Heap : Type := List Grid

def hGet (h : Heap) (r : Nat) : Grid := h.getD r []

def hLen (h : Heap) : Nat := h.length

def hAlloc (h : Heap) (g : Grid) : Heap × Nat := (h ++ [g], h.length)

def hSet (h : Heap) (r : Nat) (g : Grid) : Heap := h.set r g

/-- Heap-passing embedding of `remove_smaller_areas` (source lines 292-323):
`filtered_seeds = seeds.copy()` allocates; the loop's
`filtered_seeds[filtered_seeds == prop.label] = 0` writes in place at that
copy; `measure.label` allocates the returned array. -/
def remove_smaller_areas_st (h : Heap) (seeds : Nat) (area_threshold : Int) :
    Except String (Heap × Nat) :=
  if gsize (hGet h seeds) = 0 then
    Except.error "seeds cannot be empty"
  else if area_threshold < 0 then
    Except.error "area_threshold must be a non-negative integer"
  else
    let props := regionprops (hGet h seeds)
    let alloc1 := hAlloc h (hGet h seeds)
    let h1 := alloc1.1
    let f := alloc1.2
    let h2 := props.foldl (fun hh prop =>
      if (prop.2 : Int) ≤ area_threshold
        then hSet hh f (zeroClass (hGet hh f) prop.1) else hh) h1
    let alloc2 := hAlloc h2 (ccLabel (hGet h2 f))
    Except.ok (alloc2.1, alloc2.2)

/-- Heap-passing embedding of `refine_objects_by_overlapping` (source lines
325-372): `refined_image = base_image.copy()` allocates; each loop iteration
writes only pixels of the current label into that copy (the two fancy-index
assignments of one iteration are combined in `refineStep`); the copy itself
is returned. -/
def refine_objects_st (h : Heap) (base_image refiner_image : Nat)
    (max_cell_area : Nat) : Heap × Nat :=
  let alloc1 := hAlloc h (hGet h base_image)
  let h1 := alloc1.1
  let f := alloc1.2
  let refiner_mask := gmask (hGet h1 refiner_image)
  let props := regionprops (hGet h1 f)
  let h2 := props.foldl (fun hh prop =>
    hSet hh f (refineStep refiner_mask max_cell_area (hGet hh f) prop)) h1
  (h2, f)

/-- Heap-passing embedding of `add_objects_by_overlapping` (source lines
374-439): `image = copy.deepcopy(base_image)` allocates; the loop writes only
`image`; the final `measure.label` allocates the returned array.  The two
consecutive writes of the found-host branch (zeroing via the integer-indexing
bug, then stamping) are combined into one `hSet` of their composed value. -/
def add_objects_st (h : Heap) (base_image single_channel_image : Nat)
    (cells_overlap : ℚ) (min_cell_area : Nat) : Except String (Heap × Nat) :=
  let alloc1 := hAlloc h (hGet h base_image)
  let h1 := alloc1.1
  let f := alloc1.2
  let mask := gmask (hGet h1 f)
  match get_maximum_label (hGet h1 base_image) with
  | Except.error e => Except.error e
  | Except.ok m =>
    ((regionprops (hGet h1 single_channel_image)).foldlM
      (fun (st : Heap × Nat) prop =>
        let hh := st.1
        let next_usable_label := st.2
        let current_mask := maskEq (hGet hh single_channel_image) prop.1
        let overlap_mask := andB current_mask mask
        if 0 < countB overlap_mask then
          match get_overlapping_components (hGet hh f) (NpArr.bools current_mask)
              cells_overlap with
          | Except.error e => Except.error e
          | Except.ok none => Except.ok (hh, next_usable_label)
          | Except.ok (some (_cl, component_mask, _r)) =>
            if min_cell_area ≤ countB component_mask then
              match intFancyZeroRows (hGet hh f) (dilationSq9 (bToGrid current_mask)) with
              | Except.error e => Except.error e
              | Except.ok image1 =>
                Except.ok (hSet hh f (stampMask image1 current_mask next_usable_label),
                  next_usable_label + 1)
            else Except.ok (hh, next_usable_label)
        else
          Except.ok (hSet hh f (stampMask (hGet hh f) current_mask next_usable_label),
            next_usable_label + 1))
      (h1, m + 1)).bind (fun st =>
        let alloc2 := hAlloc st.1 (ccLabel (hGet st.1 f))
        Except.ok (alloc2.1, alloc2.2))

/-- Heap-passing embedding of `add_nuclei_by_overlapping` (source lines
442-481): `image = copy.deepcopy(base_image)` allocates; the loop writes only
`image`; the final `measure.label` allocates the returned array. -/
def add_nuclei_st (h : Heap) (base_image single_channel_image : Nat)
    (min_cell_area : Nat) : Except String (Heap × Nat) :=
  let alloc1 := hAlloc h (hGet h base_image)
  let h1 := alloc1.1
  let f := alloc1.2
  let mask := gmask (hGet h1 f)
  match get_maximum_label (hGet h1 base_image) with
  | Except.error e => Except.error e
  | Except.ok m =>
    ((regionprops (hGet h1 single_channel_image)).foldlM
      (fun (st : Heap × Nat) prop =>
        let hh := st.1
        let next_usable_label := st.2
        let current_mask := maskEq (hGet hh single_channel_image) prop.1
        let overlap_mask := andB current_mask mask
        if 0 < countB overlap_mask then
          match get_nuclei_connected_components (hGet hh f) (NpArr.bools current_mask)
              min_cell_area with
          | Except.error e => Except.error e
          | Except.ok none => Except.ok (hh, next_usable_label)
          | Except.ok (some (component_label, component_mask, _r)) =>
            Except.ok (hSet hh f (stampMask (hGet hh f)
              (orB component_mask current_mask) component_label), next_usable_label)
        else
          Except.ok (hSet hh f (stampMask (hGet hh f) current_mask next_usable_label),
            next_usable_label + 1))
      (h1, m + 1)).bind (fun st =>
        let alloc2 := hAlloc st.1 (ccLabel (hGet st.1 f))
        Except.ok (alloc2.1, alloc2.2))

/-! ## Theorems -/

theorem mem_allPositions {g : Grid} {p : Pix} :
    p ∈ allPositions g ↔ p.1 < g.length ∧ p.2 < (g.getD p.1 []).length := by
  obtain ⟨i, j⟩ := p
  simp only [allPositions, List.mem_flatMap, List.mem_map, List.mem_range]
  constructor
  · rintro ⟨a, ha, b, hb, h⟩
    obtain ⟨rfl, rfl⟩ : a = i ∧ b = j := by
      constructor <;> [exact congrArg Prod.fst h; exact congrArg Prod.snd h]
    exact ⟨ha, hb⟩
  · rintro ⟨hi, hj⟩
    exact ⟨i, hi, j, hj, rfl⟩

theorem getD_eq_zero_of_ge {g : Grid} {i : Nat} (h : g.length ≤ i) : g.getD i [] = [] := by
  simp [List.getD_eq_getElem?_getD, List.getElem?_eq_none (by simpa using h)]

theorem getP_ne_zero_mem {g : Grid} {p : Pix} (h : getP g p ≠ 0) : p ∈ allPositions g := by
  rw [mem_allPositions]
  constructor
  · by_contra hc
    apply h
    unfold getP
    rw [getD_eq_zero_of_ge (le_of_not_lt hc)]
    simp
  · by_contra hc
    apply h
    unfold getP
    rw [List.getD_eq_getElem?_getD, List.getElem?_eq_none (le_of_not_lt hc)]
    rfl

theorem allPositions_nodup (g : Grid) : (allPositions g).Nodup := by
  rw [allPositions, List.nodup_flatMap]
  refine ⟨fun i _ => ?_, ?_⟩
  · exact (List.nodup_range _).map (fun a b h => by
      simpa using congrArg Prod.snd h)
  · refine (List.pairwise_lt_range _).imp ?_
    intro a b hab
    simp only [Function.onFun]
    intro x hx hx'
    simp only [List.mem_map, List.mem_range] at hx hx'
    obtain ⟨j, hj, rfl⟩ := hx
    obtain ⟨j', hj', h⟩ := hx'
    have hba : b = a := congrArg Prod.fst h
    omega

theorem near_symm {a b : Nat} (h : near a b) : near b a := by
  unfold near at *; tauto

theorem adjPix_symm {p q : Pix} (h : adjPix p q) : adjPix q p :=
  ⟨near_symm h.1, near_symm h.2.1, fun e => h.2.2 e.symm⟩

theorem stepPix_symm {g : Grid} : Symmetric (stepPix g) := by
  rintro p q ⟨ha, hv, hz⟩
  exact ⟨adjPix_symm ha, hv.symm, hv ▸ hz⟩

theorem stepPix_mem {g : Grid} {p q : Pix} (h : stepPix g p q) : q ∈ allPositions g :=
  getP_ne_zero_mem (fun e => h.2.2 (h.2.1.trans e))

theorem rtg_getP {g : Grid} {p q : Pix} (h : Relation.ReflTransGen (stepPix g) p q) :
    getP g q = getP g p := by
  induction h with
  | refl => rfl
  | tail _ hstep ih => rw [← hstep.2.1, ih]

theorem subset_expandF (g : Grid) (S : Finset Pix) : S ⊆ expandF g S :=
  Finset.subset_union_left

theorem expandF_subset (g : Grid) (S : Finset Pix) : expandF g S ⊆ S ∪ cellsF g :=
  Finset.union_subset_union_right (Finset.filter_subset _ _)

theorem iterate_expandF_subset (g : Grid) (p : Pix) (n : Nat) :
    (expandF g)^[n] {p} ⊆ insert p (cellsF g) := by
  induction n with
  | zero => simp
  | succ n ih =>
    rw [Function.iterate_succ_apply']
    refine (expandF_subset g _).trans ?_
    intro x hx
    rcases Finset.mem_union.mp hx with hx | hx
    · exact ih hx
    · exact Finset.mem_insert_of_mem hx

theorem mem_iterate_expandF_rtg {g : Grid} {p q : Pix} {n : Nat}
    (h : q ∈ (expandF g)^[n] {p}) : Relation.ReflTransGen (stepPix g) p q := by
  induction n generalizing q with
  | zero => simp at h; exact h ▸ Relation.ReflTransGen.refl
  | succ n ih =>
    rw [Function.iterate_succ_apply'] at h
    rcases Finset.mem_union.mp h with h | h
    · exact ih h
    · obtain ⟨r, hr, hstep⟩ := (Finset.mem_filter.mp h).2
      exact (ih hr).tail hstep

theorem expandF_mono (g : Grid) {S T : Finset Pix} (h : S ⊆ T) :
    expandF g S ⊆ expandF g T := by
  apply Finset.union_subset_union h
  intro x hx
  rw [Finset.mem_filter] at *
  obtain ⟨r, hr, hs⟩ := hx.2
  exact ⟨hx.1, r, h hr, hs⟩

theorem le_iterate_expandF (g : Grid) (p : Pix) (n : Nat) :
    (expandF g)^[n] {p} ⊆ (expandF g)^[n + 1] {p} := by
  rw [Function.iterate_succ_apply']
  exact subset_expandF g _

theorem iterate_expandF_stable (g : Grid) (S : Finset Pix)
    (h : expandF g S = S) (m : Nat) : (expandF g)^[m] S = S := by
  induction m with
  | zero => rfl
  | succ m ih => rw [Function.iterate_succ_apply', ih, h]

theorem exists_stable_level (g : Grid) (p : Pix) :
    ∃ k < (cellsF g).card + 1,
      expandF g ((expandF g)^[k] {p}) = (expandF g)^[k] {p} := by
  by_contra hc
  push_neg at hc
  have aux : ∀ k, k ≤ (cellsF g).card + 1 → k + 1 ≤ ((expandF g)^[k] {p}).card := by
    intro k
    induction k with
    | zero => intro _; simp
    | succ k ih =>
      intro hk
      have h1 : k + 1 ≤ ((expandF g)^[k] {p}).card := ih (by omega)
      have hne := hc k (by omega)
      have hss : (expandF g)^[k] {p} ⊂ (expandF g)^[k + 1] {p} := by
        rw [Finset.ssubset_iff_subset_ne]
        refine ⟨le_iterate_expandF g p k, ?_⟩
        rw [Function.iterate_succ_apply']
        exact fun e => hne e.symm
      have := Finset.card_lt_card hss
      omega
  have h1 := aux ((cellsF g).card + 1) le_rfl
  have h2 := Finset.card_le_card (iterate_expandF_subset g p ((cellsF g).card + 1))
  have h3 := Finset.card_insert_le p (cellsF g)
  omega

theorem expandF_reachF (g : Grid) (p : Pix) : expandF g (reachF g p) = reachF g p := by
  obtain ⟨k, hk, hstable⟩ := exists_stable_level g p
  have key : reachF g p = (expandF g)^[k] {p} := by
    unfold reachF
    have : (cellsF g).card + 1 = ((cellsF g).card + 1 - k) + k := by omega
    rw [this, Function.iterate_add_apply]
    exact iterate_expandF_stable g _ hstable _
  rw [key]
  exact hstable

theorem self_mem_reachF (g : Grid) (p : Pix) : p ∈ reachF g p := by
  unfold reachF
  induction (cellsF g).card + 1 with
  | zero => simp
  | succ n ih => exact le_iterate_expandF g p n ih

theorem rtg_mem_reachF {g : Grid} {p q : Pix}
    (h : Relation.ReflTransGen (stepPix g) p q) : q ∈ reachF g p := by
  induction h with
  | refl => exact self_mem_reachF g p
  | tail hr hstep ih =>
    rw [← expandF_reachF g p]
    apply Finset.mem_union_right
    rw [Finset.mem_filter]
    exact ⟨by rw [cellsF, List.mem_toFinset]; exact stepPix_mem hstep, _, ih, hstep⟩

theorem sameComp_iff {g : Grid} {p q : Pix} :
    sameComp g p q ↔ getP g p ≠ 0 ∧ Relation.ReflTransGen (stepPix g) p q := by
  unfold sameComp
  exact and_congr_right fun _ => ⟨mem_iterate_expandF_rtg, rtg_mem_reachF⟩

theorem sameComp_refl {g : Grid} {p : Pix} (h : getP g p ≠ 0) : sameComp g p p :=
  ⟨h, self_mem_reachF g p⟩

theorem sameComp_getP {g : Grid} {p q : Pix} (h : sameComp g p q) : getP g q = getP g p :=
  rtg_getP (sameComp_iff.mp h).2

theorem sameComp_symm {g : Grid} {p q : Pix} (h : sameComp g p q) : sameComp g q p := by
  rw [sameComp_iff] at h ⊢
  exact ⟨by rw [rtg_getP h.2]; exact h.1,
    Relation.ReflTransGen.symmetric stepPix_symm h.2⟩

theorem sameComp_trans {g : Grid} {p q r : Pix}
    (h1 : sameComp g p q) (h2 : sameComp g q r) : sameComp g p r := by
  rw [sameComp_iff] at h1 h2 ⊢
  exact ⟨h1.1, h1.2.trans h2.2⟩

theorem sameComp_mem {g : Grid} {p q : Pix} (h : sameComp g p q) : q ∈ allPositions g :=
  getP_ne_zero_mem (by rw [sameComp_getP h]; exact h.1)

theorem find?_congr_pred {α : Type} {p q : α → Bool} (l : List α)
    (h : ∀ x ∈ l, p x = q x) : l.find? p = l.find? q := by
  induction l with
  | nil => rfl
  | cons a l ih =>
    simp only [List.find?_cons]
    rw [h a (List.mem_cons_self a l)]
    cases q a
    · exact ih (fun x hx => h x (List.mem_cons_of_mem a hx))
    · rfl

theorem repOf_sameComp {g : Grid} {p : Pix} (h : getP g p ≠ 0) :
    sameComp g p (repOf g p) := by
  unfold repOf
  have hmem : p ∈ allPositions g := getP_ne_zero_mem h
  have hsome : ((allPositions g).find? (fun q => decide (sameComp g p q))).isSome := by
    rw [List.find?_isSome]
    exact ⟨p, hmem, by simp [sameComp_refl h]⟩
  obtain ⟨r, hr⟩ := Option.isSome_iff_exists.mp hsome
  rw [hr]
  have := List.find?_some hr
  simpa using this

theorem repOf_congr {g : Grid} {p q : Pix} (h : sameComp g p q) :
    repOf g p = repOf g q := by
  have hq : getP g q ≠ 0 := by rw [sameComp_getP h]; exact h.1
  unfold repOf
  have heq : (allPositions g).find? (fun x => decide (sameComp g p x))
      = (allPositions g).find? (fun x => decide (sameComp g q x)) :=
    find?_congr_pred _ (fun x _ => by
      rw [decide_eq_decide]
      exact ⟨fun hx => sameComp_trans (sameComp_symm h) hx,
        fun hx => sameComp_trans h hx⟩)
  have hsome : ((allPositions g).find? (fun x => decide (sameComp g q x))).isSome := by
    rw [List.find?_isSome]
    exact ⟨q, getP_ne_zero_mem hq, by simp [sameComp_refl hq]⟩
  obtain ⟨r, hr⟩ := Option.isSome_iff_exists.mp hsome
  rw [heq, hr]
  rfl

theorem repOf_getP {g : Grid} {p : Pix} (h : getP g p ≠ 0) :
    getP g (repOf g p) = getP g p :=
  sameComp_getP (repOf_sameComp h)

theorem repOf_idem {g : Grid} {p : Pix} (h : getP g p ≠ 0) :
    repOf g (repOf g p) = repOf g p :=
  (repOf_congr (repOf_sameComp h)).symm

theorem repOf_mem_repsOf {g : Grid} {p : Pix} (h : getP g p ≠ 0) :
    repOf g p ∈ repsOf g := by
  unfold repsOf
  rw [List.mem_filter]
  refine ⟨sameComp_mem (repOf_sameComp h), ?_⟩
  unfold isRep
  simp [repOf_getP h, h, repOf_idem h]

theorem repsOf_nodup (g : Grid) : (repsOf g).Nodup :=
  (allPositions_nodup g).filter _

theorem mem_repsOf {g : Grid} {r : Pix} :
    r ∈ repsOf g ↔ r ∈ allPositions g ∧ getP g r ≠ 0 ∧ repOf g r = r := by
  unfold repsOf isRep
  rw [List.mem_filter]
  simp

theorem sameComp_of_repOf_eq {g : Grid} {p q : Pix} (hp : getP g p ≠ 0)
    (hq : getP g q ≠ 0) (h : repOf g p = repOf g q) : sameComp g p q := by
  have h1 := repOf_sameComp hp
  have h2 := repOf_sameComp hq
  rw [h] at h1
  exact sameComp_trans h1 (sameComp_symm h2)

theorem getP_mapIdx2 {α : Type} (f : Pix → Nat → α) (g : Grid) (dflt : α) (p : Pix) :
    ((mapIdx2 f g).getD p.1 []).getD p.2 dflt
      = if p ∈ allPositions g then f p (getP g p) else dflt := by
  obtain ⟨i, j⟩ := p
  by_cases hmem : (i, j) ∈ allPositions g
  · obtain ⟨hi, hj⟩ := mem_allPositions.mp hmem
    rw [if_pos hmem]
    have hrow : g.getD i [] = g[i] := by
      simp [List.getD_eq_getElem?_getD, List.getElem?_eq_getElem hi]
    rw [hrow] at hj
    unfold mapIdx2 getP
    simp [List.getD_eq_getElem?_getD, List.getElem?_mapIdx,
      List.getElem?_eq_getElem hi, List.getElem?_eq_getElem hj, hrow]
  · rw [if_neg hmem]
    rw [mem_allPositions] at hmem
    have hmem' : ¬(i < g.length ∧ j < (g.getD i []).length) := hmem
    unfold mapIdx2
    simp only [List.getD_eq_getElem?_getD, List.getElem?_mapIdx]
    rcases Nat.lt_or_ge i g.length with hi | hi
    · have hrow : g.getD i [] = g[i] := by
        simp [List.getD_eq_getElem?_getD, List.getElem?_eq_getElem hi]
      have hj : (g[i]).length ≤ j := by
        rw [← hrow]
        by_contra hc
        exact hmem' ⟨hi, by omega⟩
      rw [List.getElem?_eq_getElem hi]
      simp only [Option.map_some', Option.getD_some, List.getElem?_mapIdx]
      rw [show g[i][j]? = none from List.getElem?_eq_none hj]
      rfl
    · rw [show g[i]? = none from List.getElem?_eq_none (by simpa using hi)]
      rfl

theorem getP_ccLabel (g : Grid) (p : Pix) : getP (ccLabel g) p = ccLabelAt g p := by
  unfold ccLabel
  show ((mapIdx2 _ g).getD p.1 []).getD p.2 0 = _
  rw [getP_mapIdx2]
  split
  · rfl
  · rename_i hout
    unfold ccLabelAt
    rw [if_pos]
    by_contra hz
    exact hout (getP_ne_zero_mem hz)

theorem idxIn_cons (x a : Pix) (l : List Pix) :
    idxIn (x :: l) a = if x = a then 0 else idxIn l a + 1 := rfl

theorem idxIn_lt_length {l : List Pix} {a : Pix} (h : a ∈ l) : idxIn l a < l.length := by
  induction l with
  | nil => cases h
  | cons x l ih =>
    rw [idxIn_cons]
    split
    · simp
    · rename_i hne
      rcases List.mem_cons.mp h with rfl | h
      · exact absurd rfl hne
      · simpa [Nat.succ_lt_succ_iff] using ih h

theorem idxIn_getElem? {l : List Pix} {a : Pix} (h : a ∈ l) : l[idxIn l a]? = some a := by
  induction l with
  | nil => cases h
  | cons x l ih =>
    by_cases hx : x = a
    · subst hx
      rw [idxIn_cons, if_pos rfl]
      simp
    · have hmem : a ∈ l := by
        rcases List.mem_cons.mp h with rfl | h
        · exact absurd rfl hx
        · exact h
      rw [idxIn_cons, if_neg hx]
      simpa using ih hmem

theorem idxIn_get {l : List Pix} {a : Pix} (h : a ∈ l) (hlt : idxIn l a < l.length) :
    l.get ⟨idxIn l a, hlt⟩ = a := by
  have h1 := idxIn_getElem? h
  have h2 := List.getElem?_eq_getElem hlt
  rw [h1] at h2
  simp only [List.get_eq_getElem]
  exact (Option.some_injective _ h2).symm

theorem idxIn_get_self {l : List Pix} (hnd : l.Nodup) (k : Nat) (hk : k < l.length) :
    idxIn l (l.get ⟨k, hk⟩) = k := by
  induction l generalizing k with
  | nil => simp at hk
  | cons x l ih =>
    cases k with
    | zero =>
      rw [show (x :: l).get ⟨0, hk⟩ = x from rfl, idxIn_cons, if_pos rfl]
    | succ k =>
      have hk' : k < l.length := by simpa using hk
      have hmem : l.get ⟨k, hk'⟩ ∈ l := List.get_mem l k hk'
      have hgs : (x :: l).get ⟨k + 1, hk⟩ = l.get ⟨k, hk'⟩ := rfl
      have hne : x ≠ l.get ⟨k, hk'⟩ := fun e => (List.nodup_cons.mp hnd).1 (e ▸ hmem)
      rw [hgs, idxIn_cons, if_neg hne, ih (List.nodup_cons.mp hnd).2 k hk']

theorem ccLabelAt_eq_zero {g : Grid} {p : Pix} : ccLabelAt g p = 0 ↔ getP g p = 0 := by
  unfold ccLabelAt
  split
  · simpa
  · rename_i h
    simpa using h

theorem ccLabelAt_eq_iff {g : Grid} {p q : Pix} (hp : getP g p ≠ 0) (hq : getP g q ≠ 0) :
    ccLabelAt g p = ccLabelAt g q ↔ sameComp g p q := by
  unfold ccLabelAt
  rw [if_neg hp, if_neg hq]
  constructor
  · intro h
    have h' : idxIn (repsOf g) (repOf g p) = idxIn (repsOf g) (repOf g q) := by omega
    have hlt := idxIn_lt_length (repOf_mem_repsOf hp)
    have e1 := idxIn_get (repOf_mem_repsOf hp) hlt
    have e2 := idxIn_get (repOf_mem_repsOf hq) (h' ▸ hlt)
    apply sameComp_of_repOf_eq hp hq
    rw [← e1, ← e2]
    congr 1
    exact Fin.ext h'
  · intro h
    rw [repOf_congr h]

theorem ccLabelAt_le {g : Grid} (p : Pix) : ccLabelAt g p ≤ (repsOf g).length := by
  unfold ccLabelAt
  split
  · omega
  · rename_i h
    have := idxIn_lt_length (repOf_mem_repsOf h)
    omega

theorem ccLabelAt_rep {g : Grid} {k : Nat} (hk : k < (repsOf g).length) :
    ccLabelAt g ((repsOf g).get ⟨k, hk⟩) = k + 1 := by
  have hr := List.get_mem (repsOf g) k hk
  obtain ⟨hmem, hnz, hrep⟩ := mem_repsOf.mp hr
  unfold ccLabelAt
  rw [if_neg hnz, hrep, idxIn_get_self (repsOf_nodup g) k hk]

theorem sameComp_ccLabel {g : Grid} {p q : Pix} (h : sameComp g p q) :
    sameComp (ccLabel g) p q := by
  obtain ⟨hp, hr⟩ := sameComp_iff.mp h
  rw [sameComp_iff]
  refine ⟨?_, ?_⟩
  · rw [getP_ccLabel]
    exact fun e => hp (ccLabelAt_eq_zero.mp e)
  · clear h
    induction hr with
    | refl => exact Relation.ReflTransGen.refl
    | tail hab hbc ih =>
      rename_i b c
      refine ih.tail ?_
      have hb : getP g b ≠ 0 := hbc.2.2
      have hc : getP g c ≠ 0 := fun e => hbc.2.2 (hbc.2.1.trans e)
      have hsc : sameComp g b c :=
        sameComp_iff.mpr ⟨hb, Relation.ReflTransGen.tail Relation.ReflTransGen.refl hbc⟩
      refine ⟨hbc.1, ?_, ?_⟩
      · rw [getP_ccLabel, getP_ccLabel]
        exact (ccLabelAt_eq_iff hb hc).mpr hsc
      · rw [getP_ccLabel]
        exact fun e => hb (ccLabelAt_eq_zero.mp e)

theorem sameComp_of_ccLabel {g : Grid} {p q : Pix} (h : sameComp (ccLabel g) p q) :
    sameComp g p q := by
  obtain ⟨hp, hr⟩ := sameComp_iff.mp h
  clear h
  rw [getP_ccLabel] at hp
  have hp' : getP g p ≠ 0 := fun e => hp (ccLabelAt_eq_zero.mpr e)
  induction hr with
  | refl => exact sameComp_refl hp'
  | tail hab hbc ih =>
    rename_i b c
    refine sameComp_trans ih ?_
    have hb' : getP g b ≠ 0 := by
      have := hbc.2.2
      rw [getP_ccLabel] at this
      exact fun e => this (ccLabelAt_eq_zero.mpr e)
    have hc' : getP g c ≠ 0 := by
      have h0 : getP (ccLabel g) c ≠ 0 := fun e => hbc.2.2 (hbc.2.1.trans e)
      rw [getP_ccLabel] at h0
      exact fun e => h0 (ccLabelAt_eq_zero.mpr e)
    have heq : ccLabelAt g b = ccLabelAt g c := by
      have := hbc.2.1
      rwa [getP_ccLabel, getP_ccLabel] at this
    exact (ccLabelAt_eq_iff hb' hc').mp heq

theorem le_listMax {l : List Nat} {v : Nat} (h : v ∈ l) : v ≤ listMax l := by
  induction l with
  | nil => cases h
  | cons a l ih =>
    rcases List.mem_cons.mp h with rfl | h
    · exact le_max_left _ _
    · exact (ih h).trans (le_max_right _ _)

theorem mem_uniqueSorted {l : List Nat} {v : Nat} : v ∈ uniqueSorted l ↔ v ∈ l := by
  unfold uniqueSorted
  rw [List.mem_filter]
  simp only [List.mem_range, decide_eq_true_eq]
  exact ⟨fun h => h.2, fun h => ⟨by have := le_listMax h; omega, h⟩⟩

theorem uniqueSorted_nodup (l : List Nat) : (uniqueSorted l).Nodup :=
  (List.nodup_range _).filter _

theorem uniqueSorted_sorted (l : List Nat) :
    List.Sorted (· < ·) (uniqueSorted l) :=
  (List.sorted_lt_range _).filter _

theorem getP_eq_getElem {g : Grid} {i j : Nat} (hi : i < g.length)
    (hj : j < (g[i]).length) : getP g (i, j) = g[i][j] := by
  unfold getP
  have hrow : g.getD (i, j).1 [] = g[i] := by
    simp [List.getD_eq_getElem?_getD, List.getElem?_eq_getElem hi]
  rw [hrow]
  simp [List.getD_eq_getElem?_getD, List.getElem?_eq_getElem hj]

theorem mem_flatten_iff {g : Grid} {v : Nat} :
    v ∈ g.flatten ↔ ∃ p ∈ allPositions g, getP g p = v := by
  rw [List.mem_flatten]
  constructor
  · rintro ⟨row, hrow, hv⟩
    obtain ⟨i, hi, rfl⟩ := List.mem_iff_getElem.mp hrow
    obtain ⟨j, hj, rfl⟩ := List.mem_iff_getElem.mp hv
    refine ⟨(i, j), ?_, getP_eq_getElem hi hj⟩
    rw [mem_allPositions]
    have hrow : g.getD i [] = g[i] := by
      simp [List.getD_eq_getElem?_getD, List.getElem?_eq_getElem hi]
    exact ⟨hi, by rw [hrow]; exact hj⟩
  · rintro ⟨⟨i, j⟩, hmem, rfl⟩
    obtain ⟨hi, hj⟩ := mem_allPositions.mp hmem
    have hrow : g.getD i [] = g[i] := by
      simp [List.getD_eq_getElem?_getD, List.getElem?_eq_getElem hi]
    rw [hrow] at hj
    exact ⟨g[i], List.getElem_mem hi, by rw [getP_eq_getElem hi hj]; exact List.getElem_mem hj⟩

theorem flatMap_congr_fn {α β : Type} {l : List α} {f f' : α → List β}
    (h : ∀ x ∈ l, f x = f' x) : l.flatMap f = l.flatMap f' := by
  induction l with
  | nil => rfl
  | cons a l ih =>
    rw [List.flatMap_cons, List.flatMap_cons, h a (List.mem_cons_self a l),
      ih (fun x hx => h x (List.mem_cons_of_mem a hx))]

theorem countP_range_getD (l : List Nat) (v : Nat) :
    (List.range l.length).countP (fun j => decide (l.getD j 0 = v)) = l.count v := by
  induction l with
  | nil => rfl
  | cons a l ih =>
    rw [show (a :: l).length = l.length + 1 from rfl, List.range_succ_eq_map,
      List.countP_cons, List.countP_map]
    have hcg : List.countP ((fun j => decide ((a :: l).getD j 0 = v)) ∘ Nat.succ)
        (List.range l.length)
        = List.countP (fun j => decide (l.getD j 0 = v)) (List.range l.length) := by
      apply List.countP_congr
      intro x _
      simp only [Function.comp_apply, Nat.succ_eq_add_one, List.getD_cons_succ]
    rw [hcg, ih, List.count_cons]
    simp only [List.getD_cons_zero, beq_iff_eq, decide_eq_true_eq]

theorem count_flatten_eq_countP_positions (g : Grid) (v : Nat) :
    g.flatten.count v = (allPositions g).countP (fun p => decide (getP g p = v)) := by
  induction g with
  | nil => rfl
  | cons row tl ih =>
    rw [List.flatten_cons, List.count_append]
    have hAP : allPositions (row :: tl)
        = (List.range row.length).map (fun j => ((0 : Nat), j))
          ++ (allPositions tl).map (fun p => (p.1 + 1, p.2)) := by
      unfold allPositions
      rw [show (row :: tl).length = tl.length + 1 from rfl, List.range_succ_eq_map,
        List.flatMap_cons, List.flatMap_map, List.getD_cons_zero, List.map_flatMap]
      congr 1
      apply flatMap_congr_fn
      intro i _
      simp [Nat.succ_eq_add_one, List.getD_cons_succ, List.map_map]
    rw [hAP, List.countP_append, List.countP_map, List.countP_map]
    have e1 : List.countP ((fun p => decide (getP (row :: tl) p = v)) ∘ fun j => ((0 : Nat), j))
        (List.range row.length) = row.count v := by
      rw [← countP_range_getD row v]
      apply List.countP_congr
      intro j _
      simp [Function.comp_apply, getP, List.getD_cons_zero]
    have e2 : List.countP ((fun p => decide (getP (row :: tl) p = v)) ∘ fun p => (p.1 + 1, p.2))
        (allPositions tl) = List.countP (fun p => decide (getP tl p = v)) (allPositions tl) := by
      apply List.countP_congr
      intro p _
      simp [Function.comp_apply, getP, List.getD_cons_succ]
    rw [e1, e2, ih]

theorem countVal_eq_countP (g : Grid) (v : Nat) :
    countVal g v = (allPositions g).countP (fun p => decide (getP g p = v)) :=
  count_flatten_eq_countP_positions g v

theorem getD_mapIdx2_row {α β : Type} (f : Pix → α → β) (g : List (List α)) (i : Nat) :
    ((mapIdx2 f g).getD i []).length = (g.getD i []).length := by
  unfold mapIdx2
  simp only [List.getD_eq_getElem?_getD, List.getElem?_mapIdx]
  cases h : g[i]? with
  | none => simp
  | some row => simp [List.length_mapIdx]

theorem allPositions_mapIdx2 (f : Pix → Nat → Nat) (g : Grid) :
    allPositions (mapIdx2 f g) = allPositions g := by
  unfold allPositions
  rw [show (mapIdx2 f g).length = g.length from List.length_mapIdx]
  apply flatMap_congr_fn
  intro i _
  rw [getD_mapIdx2_row]

theorem allPositions_ccLabel (g : Grid) : allPositions (ccLabel g) = allPositions g :=
  allPositions_mapIdx2 _ g

theorem mem_get_nucleus_ids {g : Grid} {v : Nat} :
    v ∈ get_nucleus_ids g ↔ v ≠ 0 ∧ ∃ p ∈ allPositions g, getP g p = v := by
  unfold get_nucleus_ids
  rw [List.mem_filter, mem_uniqueSorted, mem_flatten_iff]
  simp [and_comm]

theorem get_nucleus_ids_nodup (g : Grid) : (get_nucleus_ids g).Nodup :=
  (uniqueSorted_nodup _).filter _

theorem get_nucleus_ids_sorted (g : Grid) : List.Sorted (· < ·) (get_nucleus_ids g) :=
  (uniqueSorted_sorted _).filter _

theorem getP_ccLabel_ne_zero {g : Grid} {p : Pix} :
    getP (ccLabel g) p ≠ 0 ↔ getP g p ≠ 0 := by
  rw [getP_ccLabel]
  exact ⟨fun h e => h (ccLabelAt_eq_zero.mpr e), fun h e => h (ccLabelAt_eq_zero.mp e)⟩

theorem mem_ids_ccLabel {g : Grid} {v : Nat} :
    v ∈ get_nucleus_ids (ccLabel g) ↔ 1 ≤ v ∧ v ≤ (repsOf g).length := by
  rw [mem_get_nucleus_ids]
  constructor
  · rintro ⟨hv, p, hp, hval⟩
    rw [getP_ccLabel] at hval
    have := ccLabelAt_le (g := g) p
    omega
  · rintro ⟨h1, h2⟩
    have hk : v - 1 < (repsOf g).length := by omega
    refine ⟨by omega, (repsOf g).get ⟨v - 1, hk⟩, ?_, ?_⟩
    · rw [allPositions_ccLabel]
      exact (mem_repsOf.mp (List.get_mem _ _ _)).1
    · rw [getP_ccLabel, ccLabelAt_rep hk]
      omega

theorem ids_ccLabel_eq_range' (g : Grid) :
    get_nucleus_ids (ccLabel g) = List.range' 1 (repsOf g).length := by
  have hnd2 : (List.range' 1 (repsOf g).length).Nodup :=
    (List.pairwise_lt_range' 1 (repsOf g).length).imp (fun h => Nat.ne_of_lt h)
  haveI : IsAntisymm Nat (· < ·) := ⟨fun a b h1 h2 => absurd h2 (Nat.lt_asymm h1)⟩
  apply List.eq_of_perm_of_sorted (r := (· < ·))
  · rw [List.perm_ext_iff_of_nodup (get_nucleus_ids_nodup _) hnd2]
    intro a
    rw [mem_ids_ccLabel, List.mem_range']
    constructor
    · rintro ⟨h1, h2⟩
      exact ⟨a - 1, by omega, by omega⟩
    · rintro ⟨i, hi, rfl⟩
      omega
  · exact get_nucleus_ids_sorted _
  · exact List.pairwise_lt_range' 1 (repsOf g).length

theorem ccLabel_canonical (g : Grid) : CanonicalGrid (ccLabel g) := by
  constructor
  · rw [ids_ccLabel_eq_range', List.length_range']
  · intro l hl p q hp hq
    have hl0 : l ≠ 0 := by
      rw [mem_ids_ccLabel] at hl
      omega
    have hp0 : getP g p ≠ 0 := getP_ccLabel_ne_zero.mp (hp ▸ hl0)
    have hq0 : getP g q ≠ 0 := getP_ccLabel_ne_zero.mp (hq ▸ hl0)
    have heq : ccLabelAt g p = ccLabelAt g q := by
      have e1 := getP_ccLabel g p
      have e2 := getP_ccLabel g q
      rw [hp] at e1
      rw [hq] at e2
      rw [← e1, ← e2]
    exact sameComp_ccLabel ((ccLabelAt_eq_iff hp0 hq0).mp heq)

/-! ## Pixel access lemmas for the numpy operations -/

theorem getB_out {m : BGrid} {p : Pix}
    (h : ¬(p.1 < m.length ∧ p.2 < (m.getD p.1 []).length)) : getB m p = false := by
  unfold getB
  rw [not_and_or] at h
  rcases h with h | h
  · rw [show m.getD p.1 [] = [] from by
      simp [List.getD_eq_getElem?_getD, List.getElem?_eq_none (by simpa using le_of_not_lt h)]]
    rfl
  · rw [List.getD_eq_getElem?_getD, List.getElem?_eq_none (le_of_not_lt h)]
    rfl

theorem getB_mapIdx2 (f : Pix → Bool → Bool) (m : BGrid) (p : Pix)
    (hf : ∀ q, f q false = false) : getB (mapIdx2 f m) p = f p (getB m p) := by
  obtain ⟨i, j⟩ := p
  unfold getB mapIdx2
  simp only [List.getD_eq_getElem?_getD, List.getElem?_mapIdx]
  cases hr : m[i]? with
  | none => simp [hf]
  | some row =>
    simp only [Option.map_some', Option.getD_some, List.getElem?_mapIdx]
    cases hc : row[j]? with
    | none => simp [hf]
    | some x => simp

theorem getB_map (f : Nat → Bool) (hf : f 0 = false) (g : Grid) (p : Pix) :
    getB (g.map (List.map f)) p = f (getP g p) := by
  obtain ⟨i, j⟩ := p
  unfold getB getP
  simp only [List.getD_eq_getElem?_getD, List.getElem?_map]
  cases hr : g[i]? with
  | none => simpa using hf.symm
  | some row =>
    simp only [Option.map_some', Option.getD_some, List.getElem?_map]
    cases hc : row[j]? with
    | none => simpa using hf.symm
    | some x => simp

theorem getP_bmap (f : Bool → Nat) (hf : f false = 0) (m : BGrid) (p : Pix) :
    getP (m.map (List.map f)) p = f (getB m p) := by
  obtain ⟨i, j⟩ := p
  unfold getB getP
  simp only [List.getD_eq_getElem?_getD, List.getElem?_map]
  cases hr : m[i]? with
  | none => simpa using hf.symm
  | some row =>
    simp only [Option.map_some', Option.getD_some, List.getElem?_map]
    cases hc : row[j]? with
    | none => simpa using hf.symm
    | some x => simp

theorem getB_gmask (g : Grid) (p : Pix) : getB (gmask g) p = decide (0 < getP g p) :=
  getB_map _ (by simp) g p

theorem getB_maskEq {g : Grid} {l : Nat} (hl : l ≠ 0) (p : Pix) :
    getB (maskEq g l) p = decide (getP g p = l) :=
  getB_map _ (by simp [Ne.symm hl]) g p

theorem getB_andB (m1 m2 : BGrid) (p : Pix) :
    getB (andB m1 m2) p = (getB m1 p && getB m2 p) :=
  getB_mapIdx2 _ m1 p (fun _ => rfl)

theorem getBD_mapIdx2 (f : Pix → Bool → Bool) (m : BGrid) (p : Pix) :
    getB (mapIdx2 f m) p =
      if p.1 < m.length ∧ p.2 < (m.getD p.1 []).length then f p (getB m p) else false := by
  obtain ⟨i, j⟩ := p
  by_cases hmem : i < m.length ∧ j < (m.getD i []).length
  · obtain ⟨hi, hj⟩ := hmem
    rw [if_pos ⟨hi, hj⟩]
    have hrow : m.getD i [] = m[i] := by
      simp [List.getD_eq_getElem?_getD, List.getElem?_eq_getElem hi]
    rw [hrow] at hj
    unfold mapIdx2 getB
    simp [List.getD_eq_getElem?_getD, List.getElem?_mapIdx,
      List.getElem?_eq_getElem hi, List.getElem?_eq_getElem hj, hrow]
  · rw [if_neg hmem]
    unfold mapIdx2 getB
    simp only [List.getD_eq_getElem?_getD, List.getElem?_mapIdx]
    rcases Nat.lt_or_ge i m.length with hi | hi
    · have hrow : m.getD i [] = m[i] := by
        simp [List.getD_eq_getElem?_getD, List.getElem?_eq_getElem hi]
      have hj : (m[i]).length ≤ j := by
        rw [← hrow]
        by_contra hc
        exact hmem ⟨hi, by omega⟩
      rw [List.getElem?_eq_getElem hi]
      simp only [Option.map_some', Option.getD_some, List.getElem?_mapIdx]
      rw [show m[i][j]? = none from List.getElem?_eq_none hj]
      rfl
    · rw [show m[i]? = none from List.getElem?_eq_none (by simpa using hi)]
      rfl

theorem getB_orB (m1 m2 : BGrid) (p : Pix)
    (h : (p.1 < m1.length ∧ p.2 < (m1.getD p.1 []).length) ∨ getB m2 p = false) :
    getB (orB m1 m2) p = (getB m1 p || getB m2 p) := by
  unfold orB
  rw [getBD_mapIdx2]
  rcases h with h | h
  · rw [if_pos h]
  · split
    · rfl
    · rename_i hout
      rw [getB_out (by tauto), h]
      rfl

theorem getP_zeroClass (g : Grid) (l : Nat) (p : Pix) :
    getP (zeroClass g l) p = if getP g p = l then 0 else getP g p := by
  unfold zeroClass
  show ((mapIdx2 _ g).getD p.1 []).getD p.2 0 = _
  rw [getP_mapIdx2]
  split
  · rfl
  · rename_i hout
    have h0 : getP g p = 0 := by
      by_contra hz
      exact hout (getP_ne_zero_mem hz)
    rw [h0]
    split <;> rfl

theorem getP_stampMask_mem {g : Grid} {p : Pix} (m : BGrid) (v : Nat)
    (hin : p ∈ allPositions g) :
    getP (stampMask g m v) p = if getB m p then v else getP g p := by
  unfold stampMask
  show ((mapIdx2 _ g).getD p.1 []).getD p.2 0 = _
  rw [getP_mapIdx2, if_pos hin]

theorem getP_stampMask_out {g : Grid} {p : Pix} (m : BGrid) (v : Nat)
    (hout : p ∉ allPositions g) : getP (stampMask g m v) p = 0 := by
  unfold stampMask
  show ((mapIdx2 _ g).getD p.1 []).getD p.2 0 = _
  rw [getP_mapIdx2, if_neg hout]

theorem getP_out {g : Grid} {p : Pix} (hout : p ∉ allPositions g) : getP g p = 0 := by
  by_contra hz
  exact hout (getP_ne_zero_mem hz)

theorem getP_bToGrid (m : BGrid) (p : Pix) :
    getP (bToGrid m) p = if getB m p then 1 else 0 :=
  getP_bmap _ rfl m p

theorem allPositions_zeroClass (g : Grid) (l : Nat) :
    allPositions (zeroClass g l) = allPositions g := allPositions_mapIdx2 _ g

theorem allPositions_stampMask (g : Grid) (m : BGrid) (v : Nat) :
    allPositions (stampMask g m v) = allPositions g := allPositions_mapIdx2 _ g

theorem getB_map_true {f : Nat → Bool} {g : Grid} {p : Pix}
    (h : getB (g.map (List.map f)) p = true) : f (getP g p) = true := by
  obtain ⟨i, j⟩ := p
  unfold getB getP at *
  simp only [List.getD_eq_getElem?_getD, List.getElem?_map] at h ⊢
  cases hr : g[i]? with
  | none => rw [hr] at h; simp at h
  | some row =>
    rw [hr] at h
    simp only [Option.map_some', Option.getD_some, List.getElem?_map] at h
    cases hc : row[j]? with
    | none => rw [hc] at h; simp at h
    | some x =>
      rw [hc] at h
      simp_all

theorem getB_maskEq_true {g : Grid} {l : Nat} {p : Pix}
    (h : getB (maskEq g l) p = true) : getP g p = l := by
  have := getB_map_true (f := fun x => decide (x = l)) h
  simpa using this

theorem refineStep_invariant (b : Grid) (rm : BGrid) (mca : Nat) (pr : Nat × Nat)
    (acc : Grid) (hP : allPositions acc = allPositions b)
    (hacc : ∀ q, getP acc q = getP b q ∨ getP acc q = 0) :
    allPositions (refineStep rm mca acc pr) = allPositions b
    ∧ ∀ q, getP (refineStep rm mca acc pr) q = getP b q
        ∨ getP (refineStep rm mca acc pr) q = 0 := by
  unfold refineStep
  by_cases hlt : pr.2 < mca
  · rw [if_pos hlt]
    dsimp only
    split
    · refine ⟨by rw [allPositions_stampMask, allPositions_stampMask, hP], fun q => ?_⟩
      by_cases hq : q ∈ allPositions acc
      · rw [getP_stampMask_mem _ _ (by rwa [allPositions_stampMask])]
        split
        · rename_i hov
          have hcur : getB (maskEq acc pr.1) q = true := by
            have := getB_andB (maskEq acc pr.1) rm q
            rw [hov] at this
            exact (Bool.and_eq_true_iff.mp this.symm).1
          have hval : getP acc q = pr.1 := getB_maskEq_true hcur
          rcases hacc q with h | h
          · exact Or.inl (by rw [← hval, h])
          · exact Or.inr (by rw [← hval, h])
        · rw [getP_stampMask_mem _ _ hq]
          split
          · exact Or.inr rfl
          · exact hacc q
      · refine Or.inr (getP_stampMask_out _ _ ?_)
        rwa [allPositions_stampMask]
    · refine ⟨by rw [allPositions_stampMask, hP], fun q => ?_⟩
      by_cases hq : q ∈ allPositions acc
      · rw [getP_stampMask_mem _ _ hq]
        split
        · exact Or.inr rfl
        · exact hacc q
      · exact Or.inr (getP_stampMask_out _ _ hq)
  · rw [if_neg hlt]
    exact ⟨hP, hacc⟩

theorem refine_fold_invariant (b : Grid) (rm : BGrid) (mca : Nat)
    (props : List (Nat × Nat)) :
    ∀ (acc : Grid), allPositions acc = allPositions b →
      (∀ q, getP acc q = getP b q ∨ getP acc q = 0) →
      ∀ q, getP (props.foldl (refineStep rm mca) acc) q = getP b q
        ∨ getP (props.foldl (refineStep rm mca) acc) q = 0 := by
  induction props with
  | nil => intro acc _ hacc q; exact hacc q
  | cons pr props ih =>
    intro acc hP hacc q
    rw [List.foldl_cons]
    obtain ⟨h1, h2⟩ := refineStep_invariant b rm mca pr acc hP hacc
    exact ih _ h1 h2 q

theorem refine_pixels (b s : Grid) (mca : Nat) (p : Pix) :
    getP (refine_objects_by_overlapping b s mca) p = getP b p
    ∨ getP (refine_objects_by_overlapping b s mca) p = 0 := by
  unfold refine_objects_by_overlapping
  exact refine_fold_invariant b (gmask s) mca (regionprops b) b rfl (fun q => Or.inl rfl) p

theorem add_nuclei_ok_eq {b s : Grid} {mcd : Nat} {r : Grid}
    (h : add_nuclei_by_overlapping b s mcd = Except.ok r) :
    ∃ img, addNucleiCore b s mcd = Except.ok img ∧ r = ccLabel img := by
  unfold add_nuclei_by_overlapping at h
  cases hc : addNucleiCore b s mcd with
  | error e =>
    rw [hc] at h
    exact Except.noConfusion h
  | ok img =>
    rw [hc] at h
    refine ⟨img, rfl, ?_⟩
    have h2 : Except.ok (ccLabel img) = Except.ok r := h
    cases h2
    rfl

theorem add_objects_ok_eq {b s : Grid} {co : ℚ} {mca : Nat} {r : Grid}
    (h : add_objects_by_overlapping b s co mca = Except.ok r) :
    ∃ g, r = ccLabel g := by
  unfold add_objects_by_overlapping at h
  cases hm : get_maximum_label b with
  | error e =>
    rw [hm] at h
    exact Except.noConfusion h
  | ok m =>
    rw [hm] at h
    have h' : ((regionprops s).foldlM (addObjectsStep (gmask b) co mca s) (b, m + 1)).bind
        (fun st => Except.ok (ccLabel st.1)) = Except.ok r := h
    cases hf : (regionprops s).foldlM (addObjectsStep (gmask b) co mca s) (b, m + 1) with
    | error e =>
      rw [hf] at h'
      exact Except.noConfusion h'
    | ok st =>
      rw [hf] at h'
      have h2 : Except.ok (ccLabel st.1) = Except.ok r := h'
      cases h2
      exact ⟨st.1, rfl⟩

/-- C5 counterexample: on the base image `[[1,0],[0,2]]` and refiner
`[[0,0],[0,1]]`, `refine_objects_by_overlapping` removes region 1 and keeps
region 2 with its old id, returning `[[0,0],[0,2]]`, whose ids `[2]` are not
consecutive integers starting at 1 — the refine pass does not end in
canonical relabeling, so the claim as stated is false. -/
theorem C5_counterexample : ¬ C5Stated := by
  intro h
  have hc := h.2.1 [[1, 0], [0, 2]] [[0, 0], [0, 1]]
  have hres : refine_objects_by_overlapping [[1, 0], [0, 2]] [[0, 0], [0, 1]] 1000
      = [[0, 0], [0, 2]] := by decide
  rw [hres] at hc
  have h1 := hc.1
  have hids : get_nucleus_ids [[0, 0], [0, 2]] = [2] := by decide
  rw [hids] at h1
  exact absurd h1 (by decide)

/-- C5 (amended): the two add passes do end in canonical relabeling — any
label image they return has ids that are consecutive integers starting at 1,
each id occupying exactly one maximal connected region of equal-valued
non-zero pixels — but `refine_objects_by_overlapping` performs no final
relabeling: every pixel of its result holds either 0 or the value the base
image already held there, so its ids need not start at 1. -/
theorem C5_amended_passes :
    (∀ b s r, add_nuclei_by_overlapping b s 1000 = Except.ok r → CanonicalGrid r)
    ∧ (∀ b s r, add_objects_by_overlapping b s 1 1000 = Except.ok r → CanonicalGrid r)
    ∧ (∀ b s p, getP (refine_objects_by_overlapping b s 1000) p = getP b p
        ∨ getP (refine_objects_by_overlapping b s 1000) p = 0) := by
  refine ⟨fun b s r h => ?_, fun b s r h => ?_, fun b s p => refine_pixels b s 1000 p⟩
  · obtain ⟨img, _, rfl⟩ := add_nuclei_ok_eq h
    exact ccLabel_canonical img
  · obtain ⟨g, rfl⟩ := add_objects_ok_eq h
    exact ccLabel_canonical g

/-- C5 witness: the amended theorem applied at concrete inputs; both add
passes return `[[1,0],[0,2]]` there, which is hence canonical. -/
theorem C5_witness :
    CanonicalGrid [[1, 0], [0, 2]] ∧ CanonicalGrid [[1, 0], [0, 2]] :=
  ⟨C5_amended_passes.1 [[1, 0], [0, 0]] [[0, 0], [0, 2]] [[1, 0], [0, 2]] (by decide),
   C5_amended_passes.2.1 [[1, 0], [0, 0]] [[0, 0], [0, 2]] [[1, 0], [0, 2]] (by decide)⟩

/-- C4 counterexample: on the single-pixel label image `[[1]]` with
percentage 1/10, the claimed value `max 4 (1/10 × mean area) = 4` differs
from the returned constant 30; and on `[[0]]` (a non-empty array with zero
components) the function returns 30 instead of failing. -/
theorem C4_counterexample :
    get_minimum_area_to_remove [[1]] (1 / 10) = Except.ok 30
    ∧ max (4 : ℚ) ((1 / 10) * 1) = 4
    ∧ get_minimum_area_to_remove [[1]] (1 / 10) ≠ Except.ok 4
    ∧ get_minimum_area_to_remove [[0]] (1 / 10) = Except.ok 30 :=
  ⟨by decide, max_eq_left (by norm_num), by decide, by decide⟩

/-- C4 (amended): `get_minimum_area_to_remove` raises ValueError exactly when
its input array has zero elements (not zero components); on every non-empty
input it returns the constant 30 regardless of the percentage and the region
areas — the computed `max 4 (percentage × mean area)` is overridden by the
hard-coded 30 at source line 157. -/
theorem C4_returns_constant_30 (g : Grid) (p : ℚ) :
    get_minimum_area_to_remove g p =
      if gsize g = 0 then Except.error "connected_components cannot be empty"
      else Except.ok 30 := by
  unfold get_minimum_area_to_remove
  by_cases h : gsize g = 0
  · simp only [if_pos h]
  · simp only [if_neg h]

/-- C9: `fusion_post_processing` with `just_evs = False` always raises — the
result variable `refined_evs_prediction` is never assigned on that path, so
no label map is returned — while the documented tuple result is produced only
on the `just_evs = True` path (second conjunct: a concrete successful run). -/
theorem C9_fusion_requires_just_evs :
    (∀ pd scd nd args, ∃ e, fusion_post_processing pd scd nd args false = Except.error e)
    ∧ (∃ pd scd nd args r, fusion_post_processing pd scd nd args true = Except.ok r) := by
  constructor
  · intro pd scd nd args
    have key : fusion_post_processing pd scd nd args false
        = (simple_binary_mask_post_processing pd.mask pd.original_image args true 30).bind
          (fun _ => (Except.error "UnboundLocalError: local variable refined_evs_prediction referenced before assignment" :
            Except String (Grid × Grid))) := rfl
    rw [key]
    cases h : simple_binary_mask_post_processing pd.mask pd.original_image args true 30 with
    | error e => exact ⟨e, rfl⟩
    | ok v => exact ⟨_, rfl⟩
  · exact ⟨⟨[[0]], [[[0]], [[0]]]⟩, ⟨[[0]], [[[0]], [[0]]]⟩, ⟨[[0]], [[[0]], [[0]]]⟩, (),
      ([[0]], [[0]]), by decide⟩

theorem getP_foldl_zero (ids foiIds : List Nat) (g : Grid) (p : Pix) :
    getP (ids.foldl (fun m i => if i ∈ foiIds then m else zeroClass m i) g) p
      = if getP g p ∈ ids ∧ getP g p ∉ foiIds then 0 else getP g p := by
  induction ids generalizing g with
  | nil => simp
  | cons i ids ih =>
    rw [List.foldl_cons]
    by_cases hif : i ∈ foiIds
    · rw [if_pos hif, ih]
      by_cases hfv : getP g p ∈ foiIds
      · simp [hfv]
      · by_cases hvi : getP g p = i
        · exact absurd (hvi ▸ hif) hfv
        · simp [List.mem_cons, hvi, hfv]
    · rw [if_neg hif, ih, getP_zeroClass]
      by_cases hvi : getP g p = i
      · rw [if_pos hvi, ite_self,
          if_pos ⟨by simp [hvi], by rwa [hvi]⟩]
      · rw [if_neg hvi]
        simp [List.mem_cons, hvi]

/-- C8: `foi_correction` keeps a pixel's value exactly when that id occurs
somewhere inside the inset obtained by cropping the margin E on every border
(E from the cell type: 50 for the first known group, 25 for the second, 0
otherwise) and zeroes it otherwise — so an id absent from the inset is
erased entirely while an id present in the inset keeps every one of its
pixels, margin pixels included; the full-resolution image is returned. -/
theorem C8_foi_characterization (g : Grid) (ct : String) (p : Pix) :
    getP (foi_correction g ct) p
      = (if getP g p ∈ get_nucleus_ids (foiInset g (foiMargin ct)) then getP g p else 0)
    ∧ foiMargin "DIC-C2DH-HeLa" = 50 ∧ foiMargin "BF-C2DL-HSC" = 25
    ∧ foiMargin "an-unknown-cell-type" = 0 := by
  refine ⟨?_, by decide, by decide, by decide⟩
  have hdef : foi_correction g ct
      = (get_nucleus_ids g).foldl (fun m i =>
          if i ∈ get_nucleus_ids (foiInset g (foiMargin ct)) then m else zeroClass m i) g := rfl
  rw [hdef, getP_foldl_zero]
  by_cases h0 : getP g p = 0
  · have hno : getP g p ∉ get_nucleus_ids (foiInset g (foiMargin ct)) := fun hc =>
      (mem_get_nucleus_ids.mp hc).1 h0
    rw [if_neg hno]
    split
    · rfl
    · exact h0
  · have hmem : getP g p ∈ get_nucleus_ids g :=
      mem_get_nucleus_ids.mpr ⟨h0, p, getP_ne_zero_mem h0, rfl⟩
    by_cases hfoi : getP g p ∈ get_nucleus_ids (foiInset g (foiMargin ct))
    · rw [if_pos hfoi, if_neg (by tauto)]
    · rw [if_neg hfoi, if_pos ⟨hmem, hfoi⟩]

theorem scanOverlap_eq_find (labels : Grid) (m : BGrid) (mco : ℚ) (l : List Nat) :
    scanOverlap labels m mco l
      = ((l.filter (fun v => decide (v ≠ 0))).find? (fun v =>
          decide (0 < overlapRatioQ (maskEq labels v) m
            ∧ overlapRatioQ (maskEq labels v) m ≤ mco
            ∧ 4000 ≤ countB (maskEq labels v)))).map
        (fun v => (v, maskEq labels v, overlapRatioQ (maskEq labels v) m)) := by
  induction l with
  | nil => rfl
  | cons a l ih =>
    have hcons : scanOverlap labels m mco (a :: l)
        = if a = 0 then scanOverlap labels m mco l
          else if 0 < overlapRatioQ (maskEq labels a) m
              ∧ overlapRatioQ (maskEq labels a) m ≤ mco
              ∧ 4000 ≤ countB (maskEq labels a)
            then some (a, maskEq labels a, overlapRatioQ (maskEq labels a) m)
            else scanOverlap labels m mco l := rfl
    by_cases ha : a = 0
    · subst ha
      rw [hcons, if_pos rfl, ih]
      simp [List.filter_cons]
    · rw [hcons, if_neg ha]
      have hf : (a :: l).filter (fun v => decide (v ≠ 0))
          = a :: l.filter (fun v => decide (v ≠ 0)) := by
        simp [List.filter_cons, ha]
      rw [hf]
      by_cases hp : 0 < overlapRatioQ (maskEq labels a) m
          ∧ overlapRatioQ (maskEq labels a) m ≤ mco ∧ 4000 ≤ countB (maskEq labels a)
      · rw [if_pos hp, List.find?_cons_of_pos _ (by simpa using hp)]
        rfl
      · rw [if_neg hp, List.find?_cons_of_neg _ (by simpa using hp), ih]

theorem map_range_getD_length (g : Grid) :
    (List.range g.length).map (fun i => (g.getD i []).length) = g.map List.length := by
  induction g with
  | nil => rfl
  | cons row tl ih =>
    have hstep : (List.range (row :: tl).length).map (fun i => ((row :: tl).getD i []).length)
        = row.length :: (List.range tl.length).map (fun i => (tl.getD i []).length) := by
      rw [show (row :: tl).length = tl.length + 1 from rfl, List.range_succ_eq_map,
        List.map_cons, List.map_map, List.getD_cons_zero]
      congr 1
    rw [hstep, ih]
    rfl

theorem length_allPositions (g : Grid) : (allPositions g).length = gsize g := by
  unfold allPositions gsize
  rw [List.length_flatMap, List.length_flatten]
  congr 1
  rw [← map_range_getD_length]
  apply List.map_congr_left
  intro i _
  simp [Function.comp_apply]

theorem flatten_ccLabel_le {g : Grid} {v : Nat} (hv : v ∈ (ccLabel g).flatten) :
    v ≤ gsize g := by
  obtain ⟨p, hp, rfl⟩ := mem_flatten_iff.mp hv
  rw [getP_ccLabel]
  calc ccLabelAt g p ≤ (repsOf g).length := ccLabelAt_le p
    _ ≤ (allPositions g).length := List.length_filter_le _ _
    _ = gsize g := length_allPositions g

/-- C7: under the (always satisfied in practice) proviso that the image has
fewer than 2^16 pixels, `get_overlapping_components` equals its
specification `findOverlappingComponentSpec`: it returns the first label in
ascending label order whose component has overlap ratio with the query mask
in `(0, maxOverlapRatio]` and area at least 4000 pixels, returns all-`None`
when no label qualifies (in particular, when labels 1, 2 and 3 all qualify,
it returns label 1, not the best-overlapping one), and raises when the query
mask is not a boolean array. -/
theorem C7_find_overlapping_characterization (img : Grid) (marker : NpArr) (mco : ℚ)
    (hsize : gsize img < 65536) :
    get_overlapping_components img marker mco = findOverlappingComponentSpec img marker mco := by
  cases marker with
  | ints g => rfl
  | bools m =>
    have hmap : (uniqueSorted (ccLabel img).flatten).map (fun v => v % 65536)
        = uniqueSorted (ccLabel img).flatten := by
      rw [show List.map (fun v => v % 65536) (uniqueSorted (ccLabel img).flatten)
          = List.map id (uniqueSorted (ccLabel img).flatten) from
        List.map_congr_left (fun x hx => Nat.mod_eq_of_lt
          (lt_of_le_of_lt (flatten_ccLabel_le (mem_uniqueSorted.mp hx)) hsize)),
        List.map_id]
    have h1 : get_overlapping_components img (NpArr.bools m) mco
        = Except.ok (scanOverlap (ccLabel img) m mco
            ((uniqueSorted (ccLabel img).flatten).map (fun v => v % 65536))) := rfl
    have h2 : findOverlappingComponentSpec img (NpArr.bools m) mco
        = Except.ok (((get_nucleus_ids (ccLabel img)).find? (fun l =>
            decide (0 < overlapRatioQ (maskEq (ccLabel img) l) m
              ∧ overlapRatioQ (maskEq (ccLabel img) l) m ≤ mco
              ∧ 4000 ≤ countB (maskEq (ccLabel img) l)))).map
          (fun l => (l, maskEq (ccLabel img) l,
            overlapRatioQ (maskEq (ccLabel img) l) m))) := rfl
    rw [h1, h2, hmap, scanOverlap_eq_find]
    rfl

/-- C7 witness: the characterization applied at a concrete single-pixel
image and boolean marker (both functions return all-`None` there: the only
component has 1 pixel, below 4000). -/
theorem C7_witness :
    gsize [[1]] < 65536
    ∧ get_overlapping_components [[1]] (NpArr.bools [[true]]) 1
      = findOverlappingComponentSpec [[1]] (NpArr.bools [[true]]) 1 :=
  ⟨by decide, C7_find_overlapping_characterization [[1]] (NpArr.bools [[true]]) 1 (by decide)⟩

theorem mem_regionprops {g : Grid} {pr : Nat × Nat} :
    pr ∈ regionprops g ↔ pr.1 ∈ get_nucleus_ids g ∧ pr.2 = countVal g pr.1 := by
  unfold regionprops
  rw [show ((uniqueSorted g.flatten).filter (fun v => decide (v ≠ 0)))
      = get_nucleus_ids g from rfl]
  rw [List.mem_map]
  constructor
  · rintro ⟨l, hl, rfl⟩
    exact ⟨hl, rfl⟩
  · rintro ⟨h1, h2⟩
    exact ⟨pr.1, h1, by rw [← h2]⟩

theorem getP_removeLoop (seeds : Grid) (T : Int) (props : List (Nat × Nat))
    (hn : ∀ pr ∈ props, pr.1 ≠ 0) (p : Pix) :
    getP (props.foldl (fun fs pr =>
        if (pr.2 : Int) ≤ T then zeroClass fs pr.1 else fs) seeds) p
      = if ∃ pr ∈ props, pr.1 = getP seeds p ∧ (pr.2 : Int) ≤ T then 0
        else getP seeds p := by
  induction props generalizing seeds with
  | nil => simp
  | cons pr props ih =>
    rw [List.foldl_cons]
    have hn' : ∀ x ∈ props, x.1 ≠ 0 := fun x hx => hn x (List.mem_cons_of_mem pr hx)
    by_cases hsmall : (pr.2 : Int) ≤ T
    · rw [if_pos hsmall, ih _ hn', getP_zeroClass]
      by_cases hv : getP seeds p = pr.1
      · rw [if_pos hv]
        have hz : ¬ ∃ x ∈ props, x.1 = 0 ∧ (x.2 : Int) ≤ T := by
          rintro ⟨x, hx, hx0, _⟩
          exact hn' x hx hx0
        rw [if_neg hz, if_pos ⟨pr, List.mem_cons_self pr props, hv.symm, hsmall⟩]
      · rw [if_neg hv]
        by_cases hex : ∃ x ∈ props, x.1 = getP seeds p ∧ (x.2 : Int) ≤ T
        · rw [if_pos hex]
          obtain ⟨x, hx, h1, h2⟩ := hex
          rw [if_pos ⟨x, List.mem_cons_of_mem pr hx, h1, h2⟩]
        · rw [if_neg hex, if_neg ?_]
          rintro ⟨x, hx, h1, h2⟩
          rcases List.mem_cons.mp hx with rfl | hx'
          · exact hv h1.symm
          · exact hex ⟨x, hx', h1, h2⟩
    · rw [if_neg hsmall, ih _ hn']
      by_cases hex : ∃ x ∈ props, x.1 = getP seeds p ∧ (x.2 : Int) ≤ T
      · rw [if_pos hex]
        obtain ⟨x, hx, h1, h2⟩ := hex
        rw [if_pos ⟨x, List.mem_cons_of_mem pr hx, h1, h2⟩]
      · rw [if_neg hex, if_neg ?_]
        rintro ⟨x, hx, h1, h2⟩
        rcases List.mem_cons.mp hx with rfl | hx'
        · exact hsmall h2
        · exact hex ⟨x, hx', h1, h2⟩

theorem allPositions_removeLoop (seeds : Grid) (T : Int) (props : List (Nat × Nat)) :
    allPositions (props.foldl (fun fs pr =>
        if (pr.2 : Int) ≤ T then zeroClass fs pr.1 else fs) seeds) = allPositions seeds := by
  induction props generalizing seeds with
  | nil => rfl
  | cons pr props ih =>
    rw [List.foldl_cons]
    by_cases hsmall : (pr.2 : Int) ≤ T
    · rw [if_pos hsmall, ih, allPositions_zeroClass]
    · rw [if_neg hsmall, ih]

theorem getP_filtered (seeds : Grid) (T : Int) (p : Pix) :
    getP ((regionprops seeds).foldl (fun fs pr =>
        if (pr.2 : Int) ≤ T then zeroClass fs pr.1 else fs) seeds) p
      = if getP seeds p ≠ 0 ∧ (countVal seeds (getP seeds p) : Int) ≤ T then 0
        else getP seeds p := by
  rw [getP_removeLoop seeds T _
    (fun pr hpr => (mem_get_nucleus_ids.mp (mem_regionprops.mp hpr).1).1) p]
  by_cases h0 : getP seeds p = 0
  · rw [if_neg ?h1, if_neg ?h2]
    case h2 =>
      rintro ⟨hne, _⟩
      exact hne h0
    case h1 =>
      rintro ⟨pr, hpr, h1, _⟩
      have := (mem_get_nucleus_ids.mp (mem_regionprops.mp hpr).1).1
      exact this (h1.trans h0)
  · have hpres : getP seeds p ∈ get_nucleus_ids seeds :=
      mem_get_nucleus_ids.mpr ⟨h0, p, getP_ne_zero_mem h0, rfl⟩
    by_cases hsm : (countVal seeds (getP seeds p) : Int) ≤ T
    · have hex : ∃ pr ∈ regionprops seeds, pr.1 = getP seeds p ∧ (pr.2 : Int) ≤ T :=
        ⟨(getP seeds p, countVal seeds (getP seeds p)),
          mem_regionprops.mpr ⟨hpres, rfl⟩, rfl, hsm⟩
      rw [if_pos hex, if_pos ⟨h0, hsm⟩]
    · have hex : ¬ ∃ pr ∈ regionprops seeds, pr.1 = getP seeds p ∧ (pr.2 : Int) ≤ T := by
        rintro ⟨pr, hpr, h1, h2⟩
        obtain ⟨hm, ha⟩ := mem_regionprops.mp hpr
        rw [ha, h1] at h2
        exact hsm h2
      rw [if_neg hex, if_neg (fun hc => hsm hc.2)]

theorem sameComp_of_valueset {g h : Grid} {p q : Pix} (hs : sameComp g p q)
    (hval : ∀ x, getP g x = getP g p → getP h x = getP g x) : sameComp h p q := by
  obtain ⟨hp, hr⟩ := sameComp_iff.mp hs
  rw [sameComp_iff]
  refine ⟨by rw [hval p rfl]; exact hp, ?_⟩
  clear hs
  induction hr with
  | refl => exact Relation.ReflTransGen.refl
  | tail hab hbc ih =>
    rename_i b c
    refine ih.tail ?_
    have hvb : getP g b = getP g p := rtg_getP hab
    have hvc : getP g c = getP g p := rtg_getP (hab.tail hbc)
    refine ⟨hbc.1, ?_, ?_⟩
    · rw [hval b hvb, hval c hvc, hvb, hvc]
    · rw [hval b hvb, hvb]
      exact hp

theorem remove_smaller_areas_ok {g : Grid} {T : Int} (hsz : ¬ gsize g = 0)
    (hT : ¬ T < 0) :
    remove_smaller_areas g T = Except.ok (ccLabel (removeFold g T)) := by
  unfold remove_smaller_areas removeFold
  rw [if_neg hsz, if_neg hT]

theorem remove_smaller_areas_error_iff (g : Grid) (T : Int) :
    (∃ e, remove_smaller_areas g T = Except.error e) ↔ (gsize g = 0 ∨ T < 0) := by
  unfold remove_smaller_areas
  by_cases hsz : gsize g = 0
  · rw [if_pos hsz]
    exact ⟨fun _ => Or.inl hsz, fun _ => ⟨_, rfl⟩⟩
  · rw [if_neg hsz]
    by_cases hT : T < 0
    · rw [if_pos hT]
      exact ⟨fun _ => Or.inr hT, fun _ => ⟨_, rfl⟩⟩
    · rw [if_neg hT]
      constructor
      · rintro ⟨e, he⟩
        exact Except.noConfusion he
      · rintro (h | h)
        · exact absurd h hsz
        · exact absurd h hT

theorem getP_removeFold (g : Grid) (T : Int) (p : Pix) :
    getP (removeFold g T) p
      = if getP g p ≠ 0 ∧ (countVal g (getP g p) : Int) ≤ T then 0 else getP g p :=
  getP_filtered g T p

theorem allPositions_removeFold (g : Grid) (T : Int) :
    allPositions (removeFold g T) = allPositions g :=
  allPositions_removeLoop g T (regionprops g)

theorem getP_removeFold_ne {g : Grid} {T : Int} {x : Pix} {v : Nat} (hv : v ≠ 0)
    (hx : getP (removeFold g T) x = v) :
    getP g x = v ∧ ¬ ((countVal g v : Int) ≤ T) := by
  have h := getP_removeFold g T x
  rw [hx] at h
  by_cases hc : getP g x ≠ 0 ∧ (countVal g (getP g x) : Int) ≤ T
  · rw [if_pos hc] at h
    exact absurd h hv
  · rw [if_neg hc] at h
    subst h
    refine ⟨rfl, fun hle => hc ⟨hv, hle⟩⟩

theorem getP_removeFold_keep {g : Grid} {T : Int} {x : Pix} {v : Nat}
    (hx : getP g x = v) (hk : ¬ ((countVal g v : Int) ≤ T)) :
    getP (removeFold g T) x = v := by
  have h := getP_removeFold g T x
  rw [hx] at h
  rw [if_neg (fun hc => hk hc.2)] at h
  exact h

/-- C6: on a well-formed label image (spec section 3: every non-zero id is
one connected region) with a non-negative threshold, every region of the
image returned by `remove_smaller_areas` has area strictly greater than the
threshold; and the function raises exactly when the threshold is negative or
the input array has no pixels. -/
theorem C6_remove_smaller_areas_law (g : Grid) (T : Int) (hli : IsLabelImage g) :
    (∀ res, remove_smaller_areas g T = Except.ok res →
      ∀ pr ∈ regionprops res, T < (pr.2 : Int))
    ∧ ((∃ e, remove_smaller_areas g T = Except.error e) ↔ (gsize g = 0 ∨ T < 0)) := by
  refine ⟨?_, remove_smaller_areas_error_iff g T⟩
  intro res hres pr hpr
  by_cases hsz : gsize g = 0
  · unfold remove_smaller_areas at hres
    rw [if_pos hsz] at hres
    exact Except.noConfusion hres
  by_cases hT : T < 0
  · unfold remove_smaller_areas at hres
    rw [if_neg hsz, if_pos hT] at hres
    exact Except.noConfusion hres
  rw [remove_smaller_areas_ok hsz hT] at hres
  have hres' : ccLabel (removeFold g T) = res := by
    cases hres
    rfl
  subst hres'
  obtain ⟨hl, ha⟩ := mem_regionprops.mp hpr
  obtain ⟨hne, p0, hp0mem, hp0⟩ := mem_get_nucleus_ids.mp hl
  have hF0 : getP (removeFold g T) p0 ≠ 0 := by
    rw [← getP_ccLabel_ne_zero]
    rw [hp0]
    exact hne
  obtain ⟨hg0, hkeep⟩ := getP_removeFold_ne hF0 rfl
  -- the class of pr.1 in the result is exactly the class of v in g
  have hiff : ∀ x, getP (ccLabel (removeFold g T)) x = pr.1
      ↔ getP g x = getP (removeFold g T) p0 := by
    intro x
    constructor
    · intro hx
      have hFx : getP (removeFold g T) x ≠ 0 := by
        rw [← getP_ccLabel_ne_zero, hx]
        exact hne
      have hsame : sameComp (removeFold g T) p0 x := by
        have heq : ccLabelAt (removeFold g T) p0 = ccLabelAt (removeFold g T) x := by
          have e1 := getP_ccLabel (removeFold g T) p0
          have e2 := getP_ccLabel (removeFold g T) x
          rw [hp0] at e1
          rw [hx] at e2
          rw [← e1, ← e2]
        exact (ccLabelAt_eq_iff hF0 hFx).mp heq
      have hFval : getP (removeFold g T) x = getP (removeFold g T) p0 :=
        sameComp_getP hsame
      exact (getP_removeFold_ne hF0 (by rw [hFval])).1
    · intro hx
      have hFx : getP (removeFold g T) x = getP (removeFold g T) p0 := by
        rw [getP_removeFold_keep hx hkeep]
      have hsame : sameComp g p0 x := by
        apply hli p0 (getP_ne_zero_mem (by rw [hg0]; exact hF0)) x
          (getP_ne_zero_mem (by rw [hx]; exact hF0))
        · rw [hg0, hx]
        · rw [hg0]
          exact hF0
      have hsameF : sameComp (removeFold g T) p0 x := by
        apply sameComp_of_valueset hsame
        intro y hy
        rw [hg0] at hy
        rw [hy]
        exact getP_removeFold_keep hy hkeep
      have heq : ccLabelAt (removeFold g T) x = ccLabelAt (removeFold g T) p0 := by
        apply ((ccLabelAt_eq_iff ?_ hF0).mpr (sameComp_symm hsameF))
        rw [hFx]
        exact hF0
      have e1 := getP_ccLabel (removeFold g T) p0
      have e2 := getP_ccLabel (removeFold g T) x
      rw [hp0] at e1
      rw [e2, heq, ← e1]
  have hcount : countVal (ccLabel (removeFold g T)) pr.1
      = countVal g (getP (removeFold g T) p0) := by
    rw [countVal_eq_countP, countVal_eq_countP, allPositions_ccLabel,
      allPositions_removeFold]
    apply List.countP_congr
    intro x _
    simp only [decide_eq_true_eq]
    exact hiff x
  rw [ha, hcount]
  omega

/-- C6 witness: the law applied at the concrete proper label image
`[[1,1],[0,2]]` with threshold 1; the region of area 1 is removed, the
remaining region has area 2 > 1, and no error is raised. -/
theorem C6_witness :
    IsLabelImage [[1, 1], [0, 2]]
    ∧ (∀ pr ∈ regionprops [[1, 1], [0, 0]], (1 : Int) < pr.2)
    ∧ ((∃ e, remove_smaller_areas [[1, 1], [0, 2]] 1 = Except.error e)
        ↔ (gsize [[1, 1], [0, 2]] = 0 ∨ (1 : Int) < 0)) := by
  have hli : IsLabelImage [[1, 1], [0, 2]] := by decide
  have h := C6_remove_smaller_areas_law [[1, 1], [0, 2]] 1 hli
  exact ⟨hli, fun pr hpr => h.1 [[1, 1], [0, 0]] (by decide) pr hpr, h.2⟩

/-! ## Single-row grids: structural lemmas -/

theorem getD_replicate {α : Type} (n j : Nat) (x d : α) :
    (List.replicate n x).getD j d = if j < n then x else d := by
  rw [List.getD_eq_getElem?_getD, List.getElem?_replicate]
  split <;> rfl

theorem getP_constRow (n v : Nat) (p : Pix) :
    getP (constRow n v) p = if p.1 = 0 ∧ p.2 < n then v else 0 := by
  obtain ⟨i, j⟩ := p
  unfold getP constRow
  cases i with
  | zero => rw [List.getD_cons_zero, getD_replicate]; simp
  | succ k => simp

theorem getB_constRow (n : Nat) (b : Bool) (p : Pix) :
    getB (constRow n b) p = if p.1 = 0 ∧ p.2 < n then b else false := by
  obtain ⟨i, j⟩ := p
  unfold getB constRow
  cases i with
  | zero => rw [List.getD_cons_zero, getD_replicate]; simp
  | succ k => simp

theorem flatten_singleton {α : Type} (row : List α) : [row].flatten = row := by
  simp

theorem allPositions_singleton {α : Type} (row : List α) :
    allPositions [row] = (List.range row.length).map (fun j => ((0 : Nat), j)) := by
  unfold allPositions
  rw [show ([row] : List (List α)).length = 1 from rfl,
    show List.range 1 = [0] from by decide, List.flatMap_cons,
    List.flatMap_nil, List.append_nil, List.getD_cons_zero]

theorem mapIdx2_singleton {α β : Type} (f : Pix → α → β) (row : List α) :
    mapIdx2 f [row] = [row.mapIdx (fun j v => f (0, j) v)] := by
  unfold mapIdx2
  simp [List.mapIdx_cons]

theorem mapIdx_getD_zipWith {α β γ : Type} (f : α → β → γ) (d : β) :
    ∀ (r1 : List α) (r2 : List β), r1.length ≤ r2.length →
      r1.mapIdx (fun j a => f a (r2.getD j d)) = List.zipWith f r1 r2 := by
  intro r1
  induction r1 with
  | nil => intro r2 _; simp
  | cons a l1 ih =>
    intro r2 hlen
    cases r2 with
    | nil => simp at hlen
    | cons b l2 =>
      rw [List.mapIdx_cons]
      simp only [List.getD_cons_zero, List.getD_cons_succ, List.zipWith_cons_cons]
      exact congrArg (f a b :: ·) (ih l2 (Nat.succ_le_succ_iff.mp hlen))

theorem mapIdx_const_of {α β : Type} (c : β) :
    ∀ (f : Nat → α → β) (row : List α), (∀ j < row.length, ∀ a, f j a = c) →
      row.mapIdx f = List.replicate row.length c := by
  intro f row
  induction row generalizing f with
  | nil => intro _; simp
  | cons a l ih =>
    intro h
    rw [List.mapIdx_cons, h 0 (Nat.succ_pos _) a, List.length_cons, List.replicate_succ]
    exact congrArg (c :: ·) (ih _ (fun j hj b => h (j + 1) (Nat.succ_lt_succ hj) b))

theorem listMax_replicate (n v : Nat) : listMax (List.replicate n v) = if n = 0 then 0 else v := by
  induction n with
  | zero => simp [listMax]
  | succ k ih =>
    rw [List.replicate_succ]
    show max v (listMax (List.replicate k v)) = _
    rw [ih]
    cases k <;> simp

theorem filter_range_eq_self (v : Nat) :
    (List.range (v + 1)).filter (fun x => decide (x = v)) = [v] := by
  rw [List.range_succ, List.filter_append]
  have h1 : (List.range v).filter (fun x => decide (x = v)) = [] := by
    rw [List.filter_eq_nil_iff]
    intro x hx
    simp only [decide_eq_true_eq]
    exact Nat.ne_of_lt (List.mem_range.mp hx)
  rw [h1]
  simp

theorem uniqueSorted_replicate (n v : Nat) (hn : n ≠ 0) :
    uniqueSorted (List.replicate n v) = [v] := by
  unfold uniqueSorted
  rw [listMax_replicate]
  simp only [hn, if_false]
  rw [List.filter_congr (q := fun x => decide (x = v))
    (by intro x _; simp [List.mem_replicate, hn])]
  exact filter_range_eq_self v

theorem filter_eq_singleton {α : Type} [DecidableEq α] :
    ∀ (l : List α) (p : α → Bool) (a : α), a ∈ l → (∀ x ∈ l, p x = true ↔ x = a) →
      l.Nodup → l.filter p = [a] := by
  intro l
  induction l with
  | nil => intro p a ha; exact absurd ha (List.not_mem_nil a)
  | cons x t ih =>
    intro p a ha hp hnd
    rcases List.mem_cons.mp ha with hxa | hat
    · rw [List.filter_cons, if_pos ((hp x (List.mem_cons_self x t)).mpr hxa.symm)]
      have ht : t.filter p = [] := by
        rw [List.filter_eq_nil_iff]
        intro y hy hpy
        have hya : y = a := (hp y (List.mem_cons_of_mem x hy)).mp hpy
        exact (List.nodup_cons.mp hnd).1 ((hya.trans hxa) ▸ hy)
      rw [ht, hxa]

    · have hxa : ¬ (x = a) := by
        intro h
        exact (List.nodup_cons.mp hnd).1 (h ▸ hat)
      rw [List.filter_cons, if_neg (by
        intro hpx
        exact hxa ((hp x (List.mem_cons_self x t)).mp hpx))]
      exact ih p a hat (fun y hy => hp y (List.mem_cons_of_mem x hy))
        (List.nodup_cons.mp hnd).2

theorem sameComp_extend {g : Grid} {p q r : Pix} (h : sameComp g p q)
    (hs : stepPix g q r) : sameComp g p r := by
  rw [sameComp_iff] at h ⊢
  exact ⟨h.1, Relation.ReflTransGen.tail h.2 hs⟩

theorem sameComp_constRow_zero {n v : Nat} (hv : v ≠ 0) :
    ∀ j, j < n → sameComp (constRow n v) (0, 0) (0, j) := by
  intro j
  induction j with
  | zero =>
    intro hj
    apply sameComp_refl
    rw [getP_constRow]
    simpa [hj] using hv
  | succ k ih =>
    intro hj
    apply sameComp_extend (ih (Nat.lt_of_succ_lt hj))
    refine ⟨⟨Or.inl rfl, Or.inr (Or.inl rfl), by simp⟩, ?_, ?_⟩
    · rw [getP_constRow, getP_constRow]
      simp [Nat.lt_of_succ_lt hj, hj]
    · rw [getP_constRow]
      simpa [Nat.lt_of_succ_lt hj] using hv

theorem sameComp_constRow {n v : Nat} (hv : v ≠ 0) {j1 j2 : Nat} (h1 : j1 < n)
    (h2 : j2 < n) : sameComp (constRow n v) (0, j1) (0, j2) :=
  sameComp_trans (sameComp_symm (sameComp_constRow_zero hv j1 h1))
    (sameComp_constRow_zero hv j2 h2)

theorem allPositions_constRow {α : Type} (n : Nat) (v : α) :
    allPositions (constRow n v) = (List.range n).map (fun j => ((0 : Nat), j)) := by
  unfold constRow
  rw [allPositions_singleton, List.length_replicate]

theorem allPositions_constRow_head {α : Type} (m : Nat) (v : α) :
    ∃ rest, allPositions (constRow (m + 1) v) = (0, 0) :: rest := by
  rw [allPositions_constRow, List.range_succ_eq_map, List.map_cons]
  exact ⟨_, rfl⟩

theorem repOf_constRow {n v : Nat} (hv : v ≠ 0) {j : Nat} (hj : j < n) :
    repOf (constRow n v) (0, j) = (0, 0) := by
  unfold repOf
  obtain ⟨m, rfl⟩ : ∃ m, n = m + 1 := ⟨n - 1, by omega⟩
  obtain ⟨rest, hrest⟩ := allPositions_constRow_head m v
  rw [hrest, List.find?_cons_of_pos _ (by
    simpa using sameComp_constRow hv hj (Nat.succ_pos m))]
  rfl

theorem repsOf_constRow {n v : Nat} (hv : v ≠ 0) (hn : 0 < n) :
    repsOf (constRow n v) = [(0, 0)] := by
  unfold repsOf
  apply filter_eq_singleton
  · rw [allPositions_constRow]
    exact List.mem_map.mpr ⟨0, List.mem_range.mpr hn, rfl⟩
  · intro x hx
    rw [allPositions_constRow] at hx
    obtain ⟨j, hj, rfl⟩ := List.mem_map.mp hx
    have hjn : j < n := List.mem_range.mp hj
    unfold isRep
    rw [repOf_constRow hv hjn, getP_constRow]
    constructor
    · intro h
      have := (Bool.and_eq_true _ _).mp h
      have h2 := of_decide_eq_true this.2
      exact congrArg (fun q : Pix => ((0 : Nat), q.2)) h2.symm
    · intro h
      have hj0 : j = 0 := (Prod.mk.injEq _ _ _ _).mp h |>.2
      subst hj0
      simp [hv, hjn]
  · exact allPositions_nodup (constRow n v)

theorem ccLabelAt_constRow {n v : Nat} (hv : v ≠ 0) {j : Nat} (hj : j < n) :
    ccLabelAt (constRow n v) (0, j) = 1 := by
  unfold ccLabelAt
  rw [getP_constRow]
  simp only [hj, and_true, if_pos rfl]
  rw [if_neg (by simpa using hv), repOf_constRow hv hj,
    repsOf_constRow hv (Nat.lt_of_le_of_lt (Nat.zero_le j) hj), idxIn_cons, if_pos rfl]

theorem ccLabel_constRow {n v : Nat} (hv : v ≠ 0) :
    ccLabel (constRow n v) = constRow n 1 := by
  show mapIdx2 _ (constRow n v) = _
  unfold constRow
  rw [mapIdx2_singleton]
  rw [mapIdx_const_of 1 _ _ (by
    intro j hj a
    rw [List.length_replicate] at hj
    exact ccLabelAt_constRow hv hj)]
  rw [List.length_replicate]

theorem andB_singleton (r1 r2 : List Bool) (h : r1.length ≤ r2.length) :
    andB [r1] [r2] = [List.zipWith (· && ·) r1 r2] := by
  unfold andB
  rw [mapIdx2_singleton]
  exact congrArg (fun l => [l]) (mapIdx_getD_zipWith (· && ·) false r1 r2 h)

theorem orB_singleton (r1 r2 : List Bool) (h : r1.length ≤ r2.length) :
    orB [r1] [r2] = [List.zipWith (· || ·) r1 r2] := by
  unfold orB
  rw [mapIdx2_singleton]
  exact congrArg (fun l => [l]) (mapIdx_getD_zipWith (· || ·) false r1 r2 h)

theorem stampMask_singleton (r : List Nat) (m : List Bool) (v : Nat)
    (h : r.length ≤ m.length) :
    stampMask [r] [m] v = [List.zipWith (fun x b => if b then v else x) r m] := by
  unfold stampMask
  rw [mapIdx2_singleton]
  exact congrArg (fun l => [l])
    (mapIdx_getD_zipWith (fun x b => if b then v else x) false r m h)

/-! ## The concrete 1x1000 run shared by the C3 development -/

theorem flatten_constRow {α : Type} (n : Nat) (v : α) :
    (constRow n v).flatten = List.replicate n v := by
  unfold constRow
  rw [List.flatten_cons, List.flatten_nil, List.append_nil]

theorem maskEq_nrow : maskEq [(1 : Nat) :: List.replicate 999 0] 1
    = [true :: List.replicate 999 false] := by
  unfold maskEq
  rw [List.map_cons, List.map_nil, List.map_cons, List.map_replicate]
  norm_num

theorem gmask_brow : gmask (constRow 1000 7) = [List.replicate 1000 true] := by
  unfold gmask constRow
  rw [List.map_cons, List.map_nil, List.map_replicate]
  norm_num

theorem maskEq_brow : maskEq (constRow 1000 7) 7 = [List.replicate 1000 true] := by
  unfold maskEq constRow
  rw [List.map_cons, List.map_nil, List.map_replicate]
  norm_num

theorem maskEq_crow : maskEq (constRow 1000 1) 1 = [List.replicate 1000 true] := by
  unfold maskEq constRow
  rw [List.map_cons, List.map_nil, List.map_replicate]
  norm_num

theorem rep1000_true_cons : (List.replicate 1000 true) = true :: List.replicate 999 true := by
  rw [show (1000 : Nat) = 999 + 1 from rfl, List.replicate_succ]

theorem len_cur_le : (true :: List.replicate 999 false).length
    ≤ (List.replicate 1000 true).length := by
  rw [List.length_cons, List.length_replicate, List.length_replicate]

theorem len_all_le : (List.replicate 1000 true).length
    ≤ (true :: List.replicate 999 false).length := by
  rw [List.length_cons, List.length_replicate, List.length_replicate]

theorem andB_cur_all : andB [true :: List.replicate 999 false] [List.replicate 1000 true]
    = [true :: List.replicate 999 false] := by
  rw [andB_singleton _ _ len_cur_le, rep1000_true_cons, List.zipWith_cons_cons,
    List.zipWith_replicate]
  simp only [Bool.true_and, Bool.false_and, inf_idem]

theorem andB_all_cur : andB [List.replicate 1000 true] [true :: List.replicate 999 false]
    = [true :: List.replicate 999 false] := by
  rw [andB_singleton _ _ len_all_le, rep1000_true_cons, List.zipWith_cons_cons,
    List.zipWith_replicate]
  simp only [Bool.true_and, Bool.and_false, inf_idem]

theorem orB_all_cur : orB [List.replicate 1000 true] [true :: List.replicate 999 false]
    = [List.replicate 1000 true] := by
  rw [orB_singleton _ _ len_all_le, rep1000_true_cons, List.zipWith_cons_cons,
    List.zipWith_replicate]
  simp only [Bool.true_or, inf_idem]

theorem stamp_brow_all : stampMask (constRow 1000 7) [List.replicate 1000 true] 1
    = constRow 1000 1 := by
  unfold constRow
  rw [stampMask_singleton _ _ _ (by rw [List.length_replicate, List.length_replicate]),
    List.zipWith_replicate]
  norm_num

theorem countB_cur : countB [true :: List.replicate 999 false] = 1 := by
  unfold countB
  rw [List.flatten_cons, List.flatten_nil, List.append_nil, List.count_cons,
    List.count_replicate]
  decide

theorem countB_all : countB [List.replicate 1000 true] = 1000 := by
  unfold countB
  rw [List.flatten_cons, List.flatten_nil, List.append_nil, List.count_replicate]
  decide

theorem gml_brow : get_maximum_label (constRow 1000 7) = Except.ok 7 := by
  unfold get_maximum_label gsize
  rw [flatten_constRow, List.length_replicate, if_neg (by norm_num),
    uniqueSorted_replicate 1000 7 (by norm_num)]
  rfl

theorem uniq_onehot (k : Nat) (hk : k ≠ 0) :
    uniqueSorted ((1 : Nat) :: List.replicate k 0) = [0, 1] := by
  unfold uniqueSorted
  have hm : listMax ((1 : Nat) :: List.replicate k 0) = 1 := by
    show max 1 (listMax (List.replicate k 0)) = 1
    rw [listMax_replicate]
    split <;> norm_num
  rw [hm, show List.range 2 = [0, 1] from by decide]
  have hcongr : ∀ x ∈ ([0, 1] : List Nat),
      (decide (x ∈ (1 : Nat) :: List.replicate k 0)) = (decide (x = 0 ∨ x = 1)) := by
    intro x hx
    apply decide_eq_decide.mpr
    constructor
    · intro hmem
      rcases List.mem_cons.mp hmem with h1 | h0
      · exact Or.inr h1
      · exact Or.inl (List.mem_replicate.mp h0).2
    · intro h
      rcases h with h0 | h1
      · exact List.mem_cons_of_mem _ (List.mem_replicate.mpr ⟨hk, h0⟩)
      · exact h1 ▸ List.mem_cons_self _ _
  rw [List.filter_congr hcongr]
  decide

theorem uniq_nrow : uniqueSorted ((1 : Nat) :: List.replicate 999 0) = [0, 1] :=
  uniq_onehot 999 (by norm_num)

theorem props_nrow : regionprops [(1 : Nat) :: List.replicate 999 0] = [(1, 1)] := by
  unfold regionprops
  rw [flatten_singleton, uniq_nrow,
    show ([0, 1] : List Nat).filter (fun v => decide (v ≠ 0)) = [1] from by decide,
    List.map_cons, List.map_nil]
  have hc : countVal [(1 : Nat) :: List.replicate 999 0] 1 = 1 := by
    unfold countVal
    rw [flatten_singleton, List.count_cons, List.count_replicate]
    decide
  rw [hc]

theorem props_brow : regionprops (constRow 1000 7) = [(7, 1000)] := by
  unfold regionprops
  rw [flatten_constRow, uniqueSorted_replicate 1000 7 (by norm_num),
    show ([7] : List Nat).filter (fun v => decide (v ≠ 0)) = [7] from by decide,
    List.map_cons, List.map_nil]
  have hc : countVal (constRow 1000 7) 7 = 1000 := by
    unfold countVal
    rw [flatten_constRow, List.count_replicate]
    decide
  rw [hc]

theorem uniq_ccB : (uniqueSorted (ccLabel (constRow 1000 7)).flatten).map (fun v => v % 65536)
    = [1] := by
  rw [ccLabel_constRow (by norm_num), flatten_constRow,
    uniqueSorted_replicate 1000 1 (by norm_num)]
  decide

theorem ratio_all_cur : overlapRatioQ [List.replicate 1000 true]
    [true :: List.replicate 999 false] = mkRat 1 1 := by
  unfold overlapRatioQ
  rw [andB_all_cur, countB_cur]
  norm_num

theorem scanNuclei_cons (labels : Grid) (m : BGrid) (d : Nat) (a : Nat) (rest : List Nat) :
    scanNuclei labels m d (a :: rest)
      = if a = 0 then scanNuclei labels m d rest
        else if 0 < overlapRatioQ (maskEq labels a) m ∧ d ≤ countB (maskEq labels a)
          then some (a, maskEq labels a, overlapRatioQ (maskEq labels a) m)
          else scanNuclei labels m d rest := rfl

theorem scanN_run : scanNuclei (constRow 1000 1) [true :: List.replicate 999 false] 1000 [1]
    = some (1, [List.replicate 1000 true], mkRat 1 1) := by
  rw [scanNuclei_cons, if_neg (by norm_num), maskEq_crow, ratio_all_cur, countB_all,
    if_pos ⟨by decide, by norm_num⟩]

theorem gncc_run : get_nuclei_connected_components (constRow 1000 7)
    (NpArr.bools [true :: List.replicate 999 false]) 1000
    = Except.ok (some (1, [List.replicate 1000 true], mkRat 1 1)) := by
  show Except.ok (scanNuclei (ccLabel (constRow 1000 7)) [true :: List.replicate 999 false]
    1000 ((uniqueSorted (ccLabel (constRow 1000 7)).flatten).map (fun v => v % 65536))) = _
  rw [uniq_ccB, ccLabel_constRow (by norm_num), scanN_run]

theorem except_bind_ok {ε α β : Type} (a : α) (f : α → Except ε β) :
    (Except.ok (ε := ε) a).bind f = f a := rfl

theorem except_bindM_ok {ε α β : Type} (a : α) (f : α → Except ε β) :
    (Except.ok (ε := ε) a >>= f) = f a := rfl

theorem stepN_run : addNucleiStep [List.replicate 1000 true] 1000
    [(1 : Nat) :: List.replicate 999 0] (constRow 1000 7, 8) (1, 1)
    = Except.ok (constRow 1000 1, 8) := by
  unfold addNucleiStep
  rw [show ((1, 1) : Nat × Nat).1 = 1 from rfl,
    show ((constRow 1000 7, 8) : Grid × Nat).1 = constRow 1000 7 from rfl,
    show ((constRow 1000 7, 8) : Grid × Nat).2 = 8 from rfl,
    maskEq_nrow]
  simp only [gncc_run]
  rw [andB_cur_all, countB_cur, if_pos (by norm_num : (0 : Nat) < 1),
    orB_all_cur, stamp_brow_all]

theorem coreN_run : addNucleiCore (constRow 1000 7) [(1 : Nat) :: List.replicate 999 0] 1000
    = Except.ok (constRow 1000 1) := by
  have h1 : addNucleiCore (constRow 1000 7) [(1 : Nat) :: List.replicate 999 0] 1000
      = (get_maximum_label (constRow 1000 7)).bind (fun m =>
          (((regionprops [(1 : Nat) :: List.replicate 999 0]).foldlM
            (addNucleiStep (gmask (constRow 1000 7)) 1000 [(1 : Nat) :: List.replicate 999 0])
            (constRow 1000 7, m + 1)).bind (fun st => Except.ok st.1))) := rfl
  rw [h1, gml_brow, except_bind_ok]
  rw [props_nrow, gmask_brow, show (7 : Nat) + 1 = 8 from rfl]
  rw [List.foldlM_cons, stepN_run, except_bindM_ok]
  rw [List.foldlM_nil]
  rfl

theorem addN_run : add_nuclei_by_overlapping (constRow 1000 7)
    [(1 : Nat) :: List.replicate 999 0] 1000 = Except.ok (constRow 1000 1) := by
  have h1 : add_nuclei_by_overlapping (constRow 1000 7) [(1 : Nat) :: List.replicate 999 0] 1000
      = (addNucleiCore (constRow 1000 7) [(1 : Nat) :: List.replicate 999 0] 1000).bind
          (fun img => Except.ok (ccLabel img)) := rfl
  rw [h1, coreN_run]
  show Except.ok (ccLabel (constRow 1000 1)) = _
  rw [ccLabel_constRow (by norm_num)]

theorem countVal_brow : countVal (constRow 1000 7) 7 = 1000 := by
  unfold countVal
  rw [flatten_constRow, List.count_replicate]
  decide

/-- C3: the claim is FALSE. On the base image `[7,7,...,7]` (one 1x1000
component, id 7, area 1000) and the nuclei image `[1,0,...,0]` (one region,
id 1, overlapping the host at pixel (0,0)), `add_nuclei_by_overlapping`
returns the all-1 image: the union receives label 1 -- the id the host gets
from `measure.label` inside `get_nuclei_connected_components` -- and not the
host's existing id 7, as the claim requires. -/
theorem C3_counterexample : ¬ C3Stated := by
  intro h
  have hrv : (1 : Nat) ∈ (regionprops [(1 : Nat) :: List.replicate 999 0]).map Prod.fst := by
    rw [props_nrow]
    decide
  have hov : 0 < countB (andB (maskEq [(1 : Nat) :: List.replicate 999 0] 1)
      (maskEq (constRow 1000 7) 7)) := by
    rw [maskEq_nrow, maskEq_brow, andB_cur_all, countB_cur]
    norm_num
  have hex : ∃ hv ∈ (regionprops (constRow 1000 7)).map Prod.fst,
      0 < countB (andB (maskEq [(1 : Nat) :: List.replicate 999 0] 1)
        (maskEq (constRow 1000 7) hv)) ∧ 1000 ≤ countVal (constRow 1000 7) hv := by
    refine ⟨7, by rw [props_brow]; decide, hov, ?_⟩
    rw [countVal_brow]
  obtain ⟨hv, hmem, _, _, hpix⟩ :=
    h (constRow 1000 7) [(1 : Nat) :: List.replicate 999 0] (constRow 1000 1) addN_run
      1 hrv hex
  have hv7 : hv = 7 := by
    rw [props_brow] at hmem
    simpa using hmem
  have h00 : getP (constRow 1000 1) (0, 0) = hv :=
    hpix (0, 0) (Or.inl rfl)
  rw [hv7] at h00
  exact absurd h00 (by decide)

theorem scanNuclei_some : ∀ (l : List Nat) {labels : Grid} {m : BGrid} {d cl : Nat}
    {cm : BGrid} {r : ℚ}, scanNuclei labels m d l = some (cl, cm, r) →
    cl ∈ l ∧ cl ≠ 0 ∧ cm = maskEq labels cl ∧ r = overlapRatioQ cm m
      ∧ 0 < r ∧ d ≤ countB cm := by
  intro l
  induction l with
  | nil =>
    intro labels m d cl cm r h
    exact Option.noConfusion h
  | cons a t ih =>
    intro labels m d cl cm r h
    rw [scanNuclei_cons] at h
    by_cases ha : a = 0
    · rw [if_pos ha] at h
      have hi := ih h
      exact ⟨List.mem_cons_of_mem _ hi.1, hi.2⟩
    rw [if_neg ha] at h
    by_cases hc : 0 < overlapRatioQ (maskEq labels a) m ∧ d ≤ countB (maskEq labels a)
    · rw [if_pos hc] at h
      injection h with h'
      injection h' with e1 e23
      injection e23 with e2 e3
      subst e1
      subst e2
      subst e3
      exact ⟨List.mem_cons_self _ _, ha, rfl, rfl, hc.1, hc.2⟩
    · rw [if_neg hc] at h
      have hi := ih h
      exact ⟨List.mem_cons_of_mem _ hi.1, hi.2⟩

theorem gncc_some {img : Grid} {marker : BGrid} {mcd cl : Nat} {cm : BGrid} {r : ℚ}
    (h : get_nuclei_connected_components img (NpArr.bools marker) mcd
      = Except.ok (some (cl, cm, r))) :
    cl ∈ (uniqueSorted (ccLabel img).flatten).map (fun v => v % 65536)
      ∧ cl ≠ 0 ∧ cm = maskEq (ccLabel img) cl ∧ r = overlapRatioQ cm marker
      ∧ 0 < r ∧ mcd ≤ countB cm := by
  have h' : Except.ok (ε := String) (scanNuclei (ccLabel img) marker mcd
      ((uniqueSorted (ccLabel img).flatten).map (fun v => v % 65536)))
      = Except.ok (some (cl, cm, r)) := h
  injection h' with h2
  exact scanNuclei_some _ h2

/-- C3 (amended): the general behavior of the scan of
`add_nuclei_by_overlapping`.  (1) The fold over the nuclei regions starts
its fresh-label counter at `max existing label + 1`.  (2) A region with no
overlap with the base foreground is stamped with the current counter value
and the counter increments (so no-overlap regions receive `max+1, max+2,
...` in region-scan order).  (3) A region with overlap for which
`get_nuclei_connected_components` finds a host has the union of its pixels
and the host's component mask stamped with the returned component label --
which is a label of `measure.label` of the WORKING image (its mask is the
class of that label in `ccLabel` of the working image, its ratio is
positive, its size is at least `min_cell_area`, and it is the uint16 cast of
a value of the relabeled image), NOT the host's existing id in the base
image -- and the counter does not move. -/
theorem C3_union_and_fresh_labels :
    (∀ (b s : Grid) (mcd : Nat), gsize b ≠ 0 →
      addNucleiCore b s mcd
        = ((regionprops s).foldlM (addNucleiStep (gmask b) mcd s)
            (b, listMax (uniqueSorted b.flatten) + 1)).bind (fun st => Except.ok st.1))
    ∧ (∀ (mask : BGrid) (mcd : Nat) (s img : Grid) (nl : Nat) (prop : Nat × Nat),
      countB (andB (maskEq s prop.1) mask) = 0 →
        addNucleiStep mask mcd s (img, nl) prop
          = Except.ok (stampMask img (maskEq s prop.1) nl, nl + 1))
    ∧ (∀ (mask : BGrid) (mcd : Nat) (s img : Grid) (nl : Nat) (prop : Nat × Nat)
        (cl : Nat) (cm : BGrid) (r : ℚ),
      0 < countB (andB (maskEq s prop.1) mask) →
      get_nuclei_connected_components img (NpArr.bools (maskEq s prop.1)) mcd
        = Except.ok (some (cl, cm, r)) →
      addNucleiStep mask mcd s (img, nl) prop
          = Except.ok (stampMask img (orB cm (maskEq s prop.1)) cl, nl)
        ∧ cl ≠ 0 ∧ cm = maskEq (ccLabel img) cl
        ∧ r = overlapRatioQ cm (maskEq s prop.1) ∧ 0 < r ∧ mcd ≤ countB cm
        ∧ ∃ v ∈ (ccLabel img).flatten, cl = v % 65536) := by
  refine ⟨?core, ?noov, ?ov⟩
  case core =>
    intro b s mcd hb
    have h1 : addNucleiCore b s mcd
        = (get_maximum_label b).bind (fun m =>
            (((regionprops s).foldlM (addNucleiStep (gmask b) mcd s) (b, m + 1)).bind
              (fun st => Except.ok st.1))) := rfl
    have h2 : get_maximum_label b = Except.ok (listMax (uniqueSorted b.flatten)) := by
      unfold get_maximum_label
      rw [if_neg hb]
    rw [h1, h2, except_bind_ok]
  case noov =>
    intro mask mcd s img nl prop h0
    unfold addNucleiStep
    dsimp only
    rw [if_neg (by rw [h0]; exact Nat.lt_irrefl 0)]
  case ov =>
    intro mask mcd s img nl prop cl cm r hov hg
    obtain ⟨hmem, hne, hcm, hr, hpos, hd⟩ := gncc_some hg
    refine ⟨?_, hne, hcm, hr, hpos, hd, ?_⟩
    · unfold addNucleiStep
      dsimp only
      rw [if_pos hov, hg]
    · obtain ⟨v, hv, hveq⟩ := List.mem_map.mp hmem
      exact ⟨v, mem_uniqueSorted.mp hv, hveq.symm⟩

/-- C3 witness: the amended theorem applied at concrete inputs.  The
counter-start equation at base `[[5]]`; the no-overlap branch (mask all
false) stamping the fresh label 9 and incrementing; the overlap branch at
working image `[[5]]`, whose `measure.label` id is 1: the union is stamped
with 1, the relabeled id. -/
theorem C3_witness :
    (gsize ([[5]] : Grid) ≠ 0
      ∧ addNucleiCore [[5]] [[1]] 1
          = ((regionprops [[1]]).foldlM (addNucleiStep (gmask [[5]]) 1 [[1]])
              ([[5]], listMax (uniqueSorted ([[5]] : Grid).flatten) + 1)).bind
            (fun st => Except.ok st.1))
    ∧ (countB (andB (maskEq [[1]] 1) [[false]]) = 0
      ∧ addNucleiStep [[false]] 1 [[1]] ([[5]], 9) (1, 1)
          = Except.ok (stampMask [[5]] (maskEq [[1]] 1) 9, 10))
    ∧ (0 < countB (andB (maskEq [[1]] 1) [[true]])
      ∧ get_nuclei_connected_components [[5]] (NpArr.bools (maskEq [[1]] 1)) 1
          = Except.ok (some (1, [[true]], mkRat 1 1))
      ∧ addNucleiStep [[true]] 1 [[1]] ([[5]], 9) (1, 1)
          = Except.ok (stampMask [[5]] (orB [[true]] (maskEq [[1]] 1)) 1, 9)) :=
  ⟨⟨by decide, C3_union_and_fresh_labels.1 [[5]] [[1]] 1 (by decide)⟩,
   ⟨by decide, C3_union_and_fresh_labels.2.1 [[false]] 1 [[1]] [[5]] 9 (1, 1) (by decide)⟩,
   ⟨by decide, by decide,
     (C3_union_and_fresh_labels.2.2 [[true]] 1 [[1]] [[5]] 9 (1, 1) 1 [[true]] (mkRat 1 1)
       (by decide) (by decide)).1⟩⟩

/-! ## The concrete 1x4000 run for the C1 development -/

theorem except_bind_err {ε α β : Type} (e : ε) (f : α → Except ε β) :
    (Except.error (α := α) e).bind f = Except.error e := rfl

theorem except_bindM_err {ε α β : Type} (e : ε) (f : α → Except ε β) :
    (Except.error (α := α) e >>= f) = Except.error e := rfl

theorem maskEq_nrow4 : maskEq [(1 : Nat) :: List.replicate 3999 0] 1
    = [true :: List.replicate 3999 false] := by
  unfold maskEq
  rw [List.map_cons, List.map_nil, List.map_cons, List.map_replicate]
  norm_num

theorem gmask_brow4 : gmask (constRow 4000 7) = [List.replicate 4000 true] := by
  unfold gmask constRow
  rw [List.map_cons, List.map_nil, List.map_replicate]
  norm_num

theorem maskEq_crow4 : maskEq (constRow 4000 1) 1 = [List.replicate 4000 true] := by
  unfold maskEq constRow
  rw [List.map_cons, List.map_nil, List.map_replicate]
  norm_num

theorem bToGrid_cur4 : bToGrid [true :: List.replicate 3999 false]
    = [(1 : Nat) :: List.replicate 3999 0] := by
  unfold bToGrid
  rw [List.map_cons, List.map_nil, List.map_cons, List.map_replicate]
  norm_num

theorem rep4000_true_cons : (List.replicate 4000 true) = true :: List.replicate 3999 true := by
  rw [show (4000 : Nat) = 3999 + 1 from rfl, List.replicate_succ]

theorem len_cur_le4 : (true :: List.replicate 3999 false).length
    ≤ (List.replicate 4000 true).length := by
  rw [List.length_cons, List.length_replicate, List.length_replicate]

theorem len_all_le4 : (List.replicate 4000 true).length
    ≤ (true :: List.replicate 3999 false).length := by
  rw [List.length_cons, List.length_replicate, List.length_replicate]

theorem andB_cur_all4 : andB [true :: List.replicate 3999 false] [List.replicate 4000 true]
    = [true :: List.replicate 3999 false] := by
  rw [andB_singleton _ _ len_cur_le4, rep4000_true_cons, List.zipWith_cons_cons,
    List.zipWith_replicate]
  simp only [Bool.true_and, Bool.false_and, inf_idem]

theorem andB_all_cur4 : andB [List.replicate 4000 true] [true :: List.replicate 3999 false]
    = [true :: List.replicate 3999 false] := by
  rw [andB_singleton _ _ len_all_le4, rep4000_true_cons, List.zipWith_cons_cons,
    List.zipWith_replicate]
  simp only [Bool.true_and, Bool.and_false, inf_idem]

theorem countB_cur4 : countB [true :: List.replicate 3999 false] = 1 := by
  unfold countB
  rw [List.flatten_cons, List.flatten_nil, List.append_nil, List.count_cons,
    List.count_replicate]
  decide

theorem countB_all4 : countB [List.replicate 4000 true] = 4000 := by
  unfold countB
  rw [List.flatten_cons, List.flatten_nil, List.append_nil, List.count_replicate]
  decide

theorem ratio_all_cur4 : overlapRatioQ [List.replicate 4000 true]
    [true :: List.replicate 3999 false] = mkRat 1 1 := by
  unfold overlapRatioQ
  rw [andB_all_cur4, countB_cur4]
  norm_num

theorem gml_brow4 : get_maximum_label (constRow 4000 7) = Except.ok 7 := by
  unfold get_maximum_label gsize
  rw [flatten_constRow, List.length_replicate, if_neg (by norm_num),
    uniqueSorted_replicate 4000 7 (by norm_num)]
  rfl

theorem uniq_nrow4 : uniqueSorted ((1 : Nat) :: List.replicate 3999 0) = [0, 1] :=
  uniq_onehot 3999 (by norm_num)

theorem props_nrow4 : regionprops [(1 : Nat) :: List.replicate 3999 0] = [(1, 1)] := by
  unfold regionprops
  rw [flatten_singleton, uniq_nrow4,
    show ([0, 1] : List Nat).filter (fun v => decide (v ≠ 0)) = [1] from by decide,
    List.map_cons, List.map_nil]
  have hc : countVal [(1 : Nat) :: List.replicate 3999 0] 1 = 1 := by
    unfold countVal
    rw [flatten_singleton, List.count_cons, List.count_replicate]
    decide
  rw [hc]

theorem uniq_ccB4 : (uniqueSorted (ccLabel (constRow 4000 7)).flatten).map (fun v => v % 65536)
    = [1] := by
  rw [ccLabel_constRow (by norm_num), flatten_constRow,
    uniqueSorted_replicate 4000 1 (by norm_num)]
  decide

theorem scanOverlap_cons (labels : Grid) (m : BGrid) (mco : ℚ) (a : Nat) (rest : List Nat) :
    scanOverlap labels m mco (a :: rest)
      = if a = 0 then scanOverlap labels m mco rest
        else if 0 < overlapRatioQ (maskEq labels a) m
            ∧ overlapRatioQ (maskEq labels a) m ≤ mco ∧ 4000 ≤ countB (maskEq labels a)
          then some (a, maskEq labels a, overlapRatioQ (maskEq labels a) m)
          else scanOverlap labels m mco rest := rfl

theorem scanO_run : scanOverlap (constRow 4000 1) [true :: List.replicate 3999 false] 1 [1]
    = some (1, [List.replicate 4000 true], mkRat 1 1) := by
  rw [scanOverlap_cons, if_neg (by norm_num), maskEq_crow4, ratio_all_cur4, countB_all4,
    if_pos ⟨by decide, by decide, by norm_num⟩]

theorem goc_run : get_overlapping_components (constRow 4000 7)
    (NpArr.bools [true :: List.replicate 3999 false]) 1
    = Except.ok (some (1, [List.replicate 4000 true], mkRat 1 1)) := by
  show Except.ok (scanOverlap (ccLabel (constRow 4000 7)) [true :: List.replicate 3999 false]
    1 ((uniqueSorted (ccLabel (constRow 4000 7)).flatten).map (fun v => v % 65536))) = _
  rw [uniq_ccB4, ccLabel_constRow (by norm_num), scanO_run]

theorem mem_allPositions_sc4 : ((0, 0) : Pix)
    ∈ allPositions [(1 : Nat) :: List.replicate 3999 0] := by
  rw [mem_allPositions]
  constructor
  · norm_num
  · show (0 : Nat) < ((1 : Nat) :: List.replicate 3999 0).length
    rw [List.length_cons, List.length_replicate]
    norm_num

theorem dil_pix0 : getP (dilationSq9 [(1 : Nat) :: List.replicate 3999 0]) (0, 0) = 1 := by
  show ((mapIdx2 _ _).getD _ []).getD _ 0 = 1
  rw [getP_mapIdx2, if_pos mem_allPositions_sc4]
  rw [if_pos]
  apply List.any_eq_true.mpr
  refine ⟨(0, 0), mem_allPositions_sc4, ?_⟩
  apply decide_eq_true
  refine ⟨by norm_num, by norm_num, by norm_num, by norm_num, ?_⟩
  show getP [(1 : Nat) :: List.replicate 3999 0] (0, 0) ≠ 0
  rw [show getP [(1 : Nat) :: List.replicate 3999 0] (0, 0) = 1 from rfl]
  norm_num

theorem dil_mem1 : (1 : Nat) ∈ (dilationSq9 [(1 : Nat) :: List.replicate 3999 0]).flatten := by
  apply mem_flatten_iff.mpr
  refine ⟨(0, 0), ?_, dil_pix0⟩
  show ((0, 0) : Pix) ∈ allPositions (mapIdx2 _ _)
  rw [allPositions_mapIdx2]
  exact mem_allPositions_sc4

theorem fancy_err : intFancyZeroRows (constRow 4000 7)
    (dilationSq9 [(1 : Nat) :: List.replicate 3999 0])
    = Except.error "IndexError: index out of bounds for axis 0" := by
  unfold intFancyZeroRows
  rw [if_neg]
  intro hall
  have h1 := List.all_eq_true.mp hall 1 dil_mem1
  rw [show (constRow 4000 7 : Grid).length = 1 from rfl] at h1
  exact absurd (of_decide_eq_true h1) (by norm_num)

theorem stepO_run : addObjectsStep [List.replicate 4000 true] 1 1000
    [(1 : Nat) :: List.replicate 3999 0] (constRow 4000 7, 8) (1, 1)
    = Except.error "IndexError: index out of bounds for axis 0" := by
  unfold addObjectsStep
  rw [show ((1, 1) : Nat × Nat).1 = 1 from rfl,
    show ((constRow 4000 7, 8) : Grid × Nat).1 = constRow 4000 7 from rfl,
    show ((constRow 4000 7, 8) : Grid × Nat).2 = 8 from rfl,
    maskEq_nrow4]
  simp only [goc_run, bToGrid_cur4, fancy_err, countB_all4]
  rw [andB_cur_all4, countB_cur4, if_pos (by norm_num : (0 : Nat) < 1),
    if_pos (by norm_num : (1000 : Nat) ≤ 4000)]

/-- C1: the claim is FALSE of the source, which has a genuine bug at line
423: `dilated_current_mask` is an INTEGER array (`dilation(...astype(int),
square(9))`), so `image[dilated_current_mask] = 0` is integer fancy indexing
along axis 0 -- it does not zero the dilated footprint.  On a single-row
base image `[7]*4000` (host component of area 4000, passing the hard-coded
4000-pixel gate of `get_overlapping_components`) and the object image
`[1,0,...,0]`, the dilated mask contains the value 1, numpy looks up row 1
of a 1-row image, and the call raises IndexError instead of carving out the
footprint and stamping a fresh label. -/
theorem C1_int_indexing_raises :
    add_objects_by_overlapping (constRow 4000 7) [(1 : Nat) :: List.replicate 3999 0] 1 1000
      = Except.error "IndexError: index out of bounds for axis 0" := by
  have h1 : add_objects_by_overlapping (constRow 4000 7) [(1 : Nat) :: List.replicate 3999 0]
      1 1000
      = (get_maximum_label (constRow 4000 7)).bind (fun m =>
          (((regionprops [(1 : Nat) :: List.replicate 3999 0]).foldlM
            (addObjectsStep (gmask (constRow 4000 7)) 1 1000
              [(1 : Nat) :: List.replicate 3999 0])
            (constRow 4000 7, m + 1)).bind (fun st => Except.ok (ccLabel st.1)))) := rfl
  rw [h1, gml_brow4, except_bind_ok]
  rw [props_nrow4, gmask_brow4, show (7 : Nat) + 1 = 8 from rfl]
  rw [List.foldlM_cons, stepO_run, except_bindM_err, except_bind_err]

/-! ## Frame lemmas for the heap model -/

theorem hGet_hAlloc {h : Heap} (g : Grid) {r : Nat} (hr : r < h.length) :
    hGet (hAlloc h g).1 r = hGet h r := by
  unfold hGet hAlloc
  exact List.getD_append _ _ _ _ hr

theorem hGet_hSet_ne {h : Heap} {f r : Nat} (g : Grid) (hne : r ≠ f) :
    hGet (hSet h f g) r = hGet h r := by
  unfold hGet hSet
  rw [List.getD_eq_getElem?_getD, List.getD_eq_getElem?_getD,
    List.getElem?_set_ne (fun he => hne he.symm)]

theorem hLen_hSet (h : Heap) (f : Nat) (g : Grid) : (hSet h f g).length = h.length :=
  List.length_set h f g

theorem foldl_writes_inv {α : Type} (f : Nat) (step : Heap → α → Heap)
    (hstep : ∀ hh a, step hh a = hh ∨ ∃ g, step hh a = hSet hh f g) :
    ∀ (l : List α) (h0 : Heap), (l.foldl step h0).length = h0.length
      ∧ ∀ r, r ≠ f → hGet (l.foldl step h0) r = hGet h0 r := by
  intro l
  induction l with
  | nil => intro h0; exact ⟨rfl, fun _ _ => rfl⟩
  | cons a l ih =>
    intro h0
    rw [List.foldl_cons]
    rcases hstep h0 a with he | ⟨g, he⟩
    · rw [he]
      exact ih h0
    · rw [he]
      refine ⟨(ih (hSet h0 f g)).1.trans (hLen_hSet h0 f g), fun r hr => ?_⟩
      rw [(ih (hSet h0 f g)).2 r hr, hGet_hSet_ne g hr]

theorem foldlM_writes_inv {α : Type} (f : Nat)
    (step : Heap × Nat → α → Except String (Heap × Nat))
    (hstep : ∀ st a st', step st a = Except.ok st' →
      st'.1 = st.1 ∨ ∃ g, st'.1 = hSet st.1 f g) :
    ∀ (l : List α) (st0 st1 : Heap × Nat), l.foldlM step st0 = Except.ok st1 →
      st1.1.length = st0.1.length ∧ ∀ r, r ≠ f → hGet st1.1 r = hGet st0.1 r := by
  intro l
  induction l with
  | nil =>
    intro st0 st1 hrun
    have h' : Except.ok (ε := String) st0 = Except.ok st1 := hrun
    cases h'
    exact ⟨rfl, fun _ _ => rfl⟩
  | cons a l ih =>
    intro st0 st1 hrun
    rw [List.foldlM_cons] at hrun
    cases hs : step st0 a with
    | error e =>
      rw [hs, except_bindM_err] at hrun
      exact Except.noConfusion hrun
    | ok st' =>
      rw [hs, except_bindM_ok] at hrun
      have hi := ih st' st1 hrun
      rcases hstep st0 a st' hs with he | ⟨g, he⟩
      · exact ⟨hi.1.trans (by rw [he]), fun r hr => by rw [hi.2 r hr, he]⟩
      · refine ⟨hi.1.trans (by rw [he, hLen_hSet]), fun r hr => ?_⟩
        rw [hi.2 r hr, he, hGet_hSet_ne g hr]

theorem hLen_hAlloc (h : Heap) (g : Grid) : (hAlloc h g).1.length = h.length + 1 := by
  unfold hAlloc
  rw [List.length_append]
  rfl

theorem remove_st_frame (h : Heap) (seeds : Nat) (T : Int) (h' : Heap) (out : Nat)
    (hrun : remove_smaller_areas_st h seeds T = Except.ok (h', out))
    (r : Nat) (hrl : r < h.length) : hGet h' r = hGet h r := by
  unfold remove_smaller_areas_st at hrun
  split at hrun
  · exact Except.noConfusion hrun
  split at hrun
  · exact Except.noConfusion hrun
  injection hrun with hpair
  injection hpair with e1 e2
  subst e1
  have hinv := foldl_writes_inv ((hAlloc h (hGet h seeds)).2)
    (fun hh prop => if (prop.2 : Int) ≤ T then
      hSet hh (hAlloc h (hGet h seeds)).2
        (zeroClass (hGet hh (hAlloc h (hGet h seeds)).2) prop.1) else hh)
    (fun hh a => by
      by_cases hc : (a.2 : Int) ≤ T
      · exact Or.inr ⟨_, if_pos hc⟩
      · exact Or.inl (if_neg hc))
    (regionprops (hGet h seeds)) ((hAlloc h (hGet h seeds)).1)
  have hlt2 : r < (List.foldl
      (fun hh prop => if (prop.2 : Int) ≤ T then
        hSet hh (hAlloc h (hGet h seeds)).2
          (zeroClass (hGet hh (hAlloc h (hGet h seeds)).2) prop.1) else hh)
      ((hAlloc h (hGet h seeds)).1) (regionprops (hGet h seeds))).length := by
    rw [hinv.1, hLen_hAlloc]
    omega
  rw [hGet_hAlloc _ hlt2, hinv.2 r (Nat.ne_of_lt hrl)]
  exact hGet_hAlloc _ hrl

theorem refine_st_frame (h : Heap) (b rf mca r : Nat) (hrl : r < h.length) :
    hGet (refine_objects_st h b rf mca).1 r = hGet h r :=
  ((foldl_writes_inv ((hAlloc h (hGet h b)).2)
      (fun hh prop => hSet hh (hAlloc h (hGet h b)).2
        (refineStep (gmask (hGet (hAlloc h (hGet h b)).1 rf)) mca
          (hGet hh (hAlloc h (hGet h b)).2) prop))
      (fun hh a => Or.inr ⟨_, rfl⟩)
      (regionprops (hGet (hAlloc h (hGet h b)).1 (hAlloc h (hGet h b)).2))
      ((hAlloc h (hGet h b)).1)).2 r (Nat.ne_of_lt hrl)).trans (hGet_hAlloc _ hrl)

theorem bind_alloc_frame (gf : Heap × Nat → Grid) {res : Except String (Heap × Nat)}
    {h2 : Heap} {out : Nat}
    (hrun : res.bind (fun st =>
      Except.ok ((hAlloc st.1 (gf st)).1, (hAlloc st.1 (gf st)).2)) = Except.ok (h2, out)) :
    ∃ st, res = Except.ok st ∧ h2 = (hAlloc st.1 (gf st)).1 := by
  cases res with
  | error e =>
    rw [except_bind_err] at hrun
    exact Except.noConfusion hrun
  | ok st =>
    rw [except_bind_ok] at hrun
    injection hrun with hpair
    injection hpair with e1 e2
    exact ⟨st, rfl, e1.symm⟩

theorem add_nuclei_st_frame (h : Heap) (b sc mcd : Nat) (h2 : Heap) (out : Nat)
    (hrun : add_nuclei_st h b sc mcd = Except.ok (h2, out))
    (r : Nat) (hrl : r < h.length) : hGet h2 r = hGet h r := by
  unfold add_nuclei_st at hrun
  dsimp only at hrun
  split at hrun
  · exact Except.noConfusion hrun
  obtain ⟨st, hres, hh2⟩ := bind_alloc_frame _ hrun
  have hinv := foldlM_writes_inv ((hAlloc h (hGet h b)).2) _ ?hstep _ _ _ hres
  case hstep =>
    intro st0 a st' hs
    split at hs
    · split at hs
      · exact Except.noConfusion hs
      · injection hs with hp
        exact Or.inl (congrArg Prod.fst hp).symm
      · injection hs with hp
        exact Or.inr ⟨_, (congrArg Prod.fst hp).symm⟩
    · injection hs with hp
      exact Or.inr ⟨_, (congrArg Prod.fst hp).symm⟩
  subst hh2
  have hlt : r < st.1.length := by
    rw [hinv.1]
    show r < (hAlloc h (hGet h b)).1.length
    rw [hLen_hAlloc]
    omega
  rw [hGet_hAlloc _ hlt, hinv.2 r (Nat.ne_of_lt hrl)]
  exact hGet_hAlloc _ hrl

theorem add_objects_st_frame (h : Heap) (b sc : Nat) (co : ℚ) (mca : Nat)
    (h2 : Heap) (out : Nat)
    (hrun : add_objects_st h b sc co mca = Except.ok (h2, out))
    (r : Nat) (hrl : r < h.length) : hGet h2 r = hGet h r := by
  unfold add_objects_st at hrun
  dsimp only at hrun
  split at hrun
  · exact Except.noConfusion hrun
  obtain ⟨st, hres, hh2⟩ := bind_alloc_frame _ hrun
  have hinv := foldlM_writes_inv ((hAlloc h (hGet h b)).2) _ ?hstep _ _ _ hres
  case hstep =>
    intro st0 a st' hs
    split at hs
    · split at hs
      · exact Except.noConfusion hs
      · injection hs with hp
        exact Or.inl (congrArg Prod.fst hp).symm
      · split at hs
        · split at hs
          · exact Except.noConfusion hs
          · injection hs with hp
            exact Or.inr ⟨_, (congrArg Prod.fst hp).symm⟩
        · injection hs with hp
          exact Or.inl (congrArg Prod.fst hp).symm
    · injection hs with hp
      exact Or.inr ⟨_, (congrArg Prod.fst hp).symm⟩
  subst hh2
  have hlt : r < st.1.length := by
    rw [hinv.1]
    show r < (hAlloc h (hGet h b)).1.length
    rw [hLen_hAlloc]
    omega
  rw [hGet_hAlloc _ hlt, hinv.2 r (Nat.ne_of_lt hrl)]
  exact hGet_hAlloc _ hrl

/-- C10: each of `remove_smaller_areas`, `refine_objects_by_overlapping`,
`add_objects_by_overlapping` and `add_nuclei_by_overlapping` copies its
base/seed image before writing (source lines 317, 350, 398, 447) and writes
only to that copy, so in the heap model every previously allocated array --
in particular every argument the caller passed in -- still holds its
original value after the call. -/
theorem C10_inputs_unchanged :
    (∀ (h : Heap) (seeds : Nat) (T : Int) (h2 : Heap) (out : Nat),
      remove_smaller_areas_st h seeds T = Except.ok (h2, out) →
      ∀ r, r < h.length → hGet h2 r = hGet h r)
    ∧ (∀ (h : Heap) (b rf mca r : Nat), r < h.length →
      hGet (refine_objects_st h b rf mca).1 r = hGet h r)
    ∧ (∀ (h : Heap) (b sc : Nat) (co : ℚ) (mca : Nat) (h2 : Heap) (out : Nat),
      add_objects_st h b sc co mca = Except.ok (h2, out) →
      ∀ r, r < h.length → hGet h2 r = hGet h r)
    ∧ (∀ (h : Heap) (b sc mcd : Nat) (h2 : Heap) (out : Nat),
      add_nuclei_st h b sc mcd = Except.ok (h2, out) →
      ∀ r, r < h.length → hGet h2 r = hGet h r) :=
  ⟨fun h s T h2 o hr r hrl => remove_st_frame h s T h2 o hr r hrl,
   fun h b rf mca r hrl => refine_st_frame h b rf mca r hrl,
   fun h b sc co mca h2 o hr r hrl => add_objects_st_frame h b sc co mca h2 o hr r hrl,
   fun h b sc mcd h2 o hr r hrl => add_nuclei_st_frame h b sc mcd h2 o hr r hrl⟩

/-- C10 witness: concrete runs of the four heap-passing functions on a
one-cell heap; each run succeeds and cell 0 -- the input array -- is
unchanged, by the theorem applied at these inputs. -/
theorem C10_witness :
    (remove_smaller_areas_st [[[1]]] 0 0 = Except.ok ([[[1]], [[1]], [[1]]], 2)
      ∧ hGet [[[1]], [[1]], [[1]]] 0 = hGet [[[1]]] 0)
    ∧ (hGet (refine_objects_st [[[1]]] 0 0 1).1 0 = hGet [[[1]]] 0)
    ∧ (add_objects_st [[[1]]] 0 0 1 1 = Except.ok ([[[1]], [[1]], [[1]]], 2)
      ∧ hGet [[[1]], [[1]], [[1]]] 0 = hGet [[[1]]] 0)
    ∧ (add_nuclei_st [[[1]]] 0 0 1 = Except.ok ([[[1]], [[1]], [[1]]], 2)
      ∧ hGet [[[1]], [[1]], [[1]]] 0 = hGet [[[1]]] 0) :=
  ⟨⟨by decide, C10_inputs_unchanged.1 [[[1]]] 0 0 [[[1]], [[1]], [[1]]] 2 (by decide) 0
      (by decide)⟩,
   C10_inputs_unchanged.2.1 [[[1]]] 0 0 1 0 (by decide),
   ⟨by decide, C10_inputs_unchanged.2.2.1 [[[1]]] 0 0 1 1 [[[1]], [[1]], [[1]]] 2 (by decide) 0
      (by decide)⟩,
   ⟨by decide, C10_inputs_unchanged.2.2.2 [[[1]]] 0 0 1 [[[1]], [[1]], [[1]]] 2 (by decide) 0
      (by decide)⟩⟩
